import Mathlib

/-!
# uaaclient: a verification development

A shallow embedding of the Go package `uaaclient` (token.go, uaaclient.go,
clients.go, client.go) together with theorems about it.

Conventions of the embedding

* A Go `string` and a Go `[]byte` are byte sequences (`GoString`).  String
  literals of the source are written with `bytes "..."`, their UTF-8 encoding.
* A Go `error` is the message it carries; a nil-able error is `Option GoError`.
* A Go call either returns or panics (`Outcome`); only `TokenFromHeader`
  contains an operation that can panic (a slice expression).
* Code of other packages (go-jose, net/http transport, crypto/rand) is taken
  as a parameter of the function that calls it.
-/

set_option autoImplicit false

namespace Uaaclient

/-! ## Go values -/

/-- Go string: an immutable sequence of bytes. -/
abbrev GoString := List UInt8

/-- The bytes of a string literal of the source (its UTF-8 encoding). -/
def bytes (s : String) : GoString := s.data.flatMap String.utf8EncodeChar

/-- Go error value, identified with the text returned by its `Error()` method. -/
structure GoError where
  msg : GoString
deriving DecidableEq, Repr

/-- The error built by `fmt.Errorf`, given the formatted message. -/
def Errorf (m : GoString) : GoError := ⟨m⟩

/-- The verb `%d` of package fmt applied to an int: its decimal digits. -/
def fmtD (i : Int) : GoString := bytes (toString i)

/-- Result of running a Go function: it returns a value or it panics. -/
inductive Outcome (α : Type) where
  | returns (a : α)
  | panics (reason : GoString)
deriving DecidableEq, Repr

/-- Sequencing of two Go computations: a panic of the first is the panic of the whole. -/
def Outcome.bind {α β : Type} (x : Outcome α) (f : α → Outcome β) : Outcome β :=
  match x with
  | .returns a => f a
  | .panics r => .panics r

/-- The slice expression `s[i:]` on a string: the bytes from index `i` on, and a
run-time panic when `i` exceeds `len(s)`. -/
def sliceFrom (s : GoString) (i : Nat) : Outcome GoString :=
  if i ≤ s.length then .returns (s.drop i)
  else .panics (bytes "runtime error: slice bounds out of range [" ++ fmtD i ++ bytes ":"
    ++ fmtD s.length ++ bytes "]")

/-- Go `strings.HasPrefix(s, p)`: `s` begins with the bytes of `p`. -/
def strings.HasPrefix (s p : GoString) : Bool := p.isPrefixOf s

/-- Go `strings.Contains(s, sub)`, used to state what a message carries. -/
def strings.Contains (s sub : GoString) : Bool := s.tails.any fun t => sub.isPrefixOf t

/-- Go `time.Time`, seen through the two numbers its `Unix()` and `Nanosecond()`
methods return: seconds elapsed since the Unix epoch and the nanosecond within
that second. -/
structure Time where
  sec : Int
  nsec : Int
deriving DecidableEq, Repr

/-- The zero value `time.Time{}`: January 1, year 1, 00:00:00 UTC. -/
def Time.zero : Time := ⟨-62135596800, 0⟩

instance : Inhabited Time := ⟨Time.zero⟩

/-- Go `time.Unix(sec, nsec)`: the instant `sec` seconds and `nsec` nanoseconds
after the Unix epoch, `nsec` being normalised into `[0, 1e9)`. -/
def time.Unix (sec nsec : Int) : Time :=
  ⟨sec + nsec / 1000000000, nsec % 1000000000⟩

/-- Go `Time.Unix()`: the number of seconds elapsed since the Unix epoch. -/
def Time.Unix (t : Time) : Int := t.sec

/-! ## token.go -/

/-- Fields of `oauth2.Token` (golang.org/x/oauth2). -/
structure OAuth2Token where
  AccessToken : GoString := []
  TokenType : GoString := []
  RefreshToken : GoString := []
  Expiry : Time := Time.zero
deriving DecidableEq, Repr

/-- The struct `Payload` of token.go; every field defaults to its Go zero value. -/
structure Payload where
  Jti : GoString := []
  IatRaw : Int := 0
  Iat : Time := Time.zero
  ExpRaw : Int := 0
  Exp : Time := Time.zero
  Iss : GoString := []
  Zid : GoString := []
  Origin : GoString := []
  UserName : GoString := []
  Email : GoString := []
  Sub : GoString := []
  Scope : List GoString := []
  Authorities : List GoString := []
  ClientID : GoString := []
  GrantType : GoString := []
deriving DecidableEq, Repr

/-- The struct `Token` of token.go: an embedded `oauth2.Token` and a `Payload`. -/
structure Token extends OAuth2Token where
  Payload : Payload := {}
deriving DecidableEq, Repr

/-- The two functions of package go-jose/jwt that token.go calls, over the
library's type `J` of parsed tokens: `jwt.ParseSigned(s)` and
`(*JSONWebToken).UnsafeClaimsWithoutVerification(&payload)` applied to a
zero `Payload` (the result is the payload as decoded). -/
structure Jose (J : Type) where
  ParseSigned : GoString → Except GoError J
  UnsafeClaimsWithoutVerification : J → Except GoError Payload

/-- The method `(*Token).UnsafeParsePayload`: the receiver after the call and the
error returned. -/
def Token.UnsafeParsePayload {J : Type} (jose : Jose J) (t : Token) : Token × Option GoError :=
  match jose.ParseSigned t.AccessToken with
  | .error err => (t, some (Errorf (bytes "Cannot parse token: " ++ err.msg)))
  | .ok token =>
    match jose.UnsafeClaimsWithoutVerification token with
    | .error err => (t, some (Errorf (bytes "Cannot parse token payload: " ++ err.msg)))
    | .ok payload =>
      let payload := { payload with Iat := time.Unix payload.IatRaw 0 }
      let payload := { payload with Exp := time.Unix payload.ExpRaw 0 }
      ({ t with Payload := payload }, none)

/-- Go `http.Header`: the values recorded under each (canonical) field name. -/
abbrev Header := List (GoString × List GoString)

/-- Go `Header.Get(key)`: the first value recorded under `key`, or `""`. -/
def Header.Get (h : Header) (key : GoString) : GoString :=
  match h.lookup key with
  | some (v :: _) => v
  | _ => []

/-- The part of an inbound `*http.Request` that the package reads. -/
structure Request where
  Header : Header := []
deriving DecidableEq, Repr

/-- The function `TokenFromHeader`: the triple `(*Token, bool, error)` it returns,
or the panic it raises. -/
def TokenFromHeader {J : Type} (jose : Jose J) (r : Request) :
    Outcome (Option Token × Bool × Option GoError) :=
  let tokenStr := Header.Get r.Header (bytes "Authorization")
  if tokenStr = [] then
    .returns (none, false, none)
  else if strings.HasPrefix tokenStr (bytes "Bearer") then
    -- Bearer <token>. Delete first 7 symbols
    (sliceFrom tokenStr 7).bind fun tokenStr =>
      let token : Token := { AccessToken := tokenStr, TokenType := bytes "bearer" }
      match Token.UnsafeParsePayload jose token with
      | (token, some err) => .returns (some token, true, some err)
      | (token, none) =>
        let token := { token with Expiry := token.Payload.Exp }
        .returns (some token, true, none)
  else
    .returns (none, true, some (Errorf (bytes "Token type is not a Bearer")))

/-- A request whose only header is `Authorization: v`. -/
def requestWithAuthorization (v : GoString) : Request :=
  { Header := [(bytes "Authorization", [v])] }

/-- A stand-in for go-jose used in examples: it parses exactly the compact
serialization `h.p.s` and decodes from it claims with `iat = 1000`, `exp = 2000`
and `jti = "id1"`; any other string is rejected. -/
def exampleJose : Jose Unit where
  ParseSigned s :=
    if s = bytes "h.p.s" then .ok ()
    else .error (Errorf (bytes "square/go-jose: compact JWS format must have three parts"))
  UnsafeClaimsWithoutVerification _ :=
    .ok { Jti := bytes "id1", IatRaw := 1000, ExpRaw := 2000 }

/-! ## encoding/json

The package reads and writes JSON through `encoding/json`.  A JSON text is
represented by its parse tree (`JSON`); the byte-level syntax is the library's
concern and only enters where bytes come from, or go to, the network (the two
functions of `Env` below).  The same trees represent the values that
`encoding/json` stores in an `interface{}`: `nil`, `bool`, `float64`, `string`,
`[]interface{}` and `map[string]interface{}`.
-/

/-- A JSON number, by its literal: `uint n` is the literal made of the decimal
digits of `n` (no sign, fraction or exponent), the literals that
`strconv.ParseUint(lit, 10, _)` accepts; `other lit` is any other literal.
A `float64` held in an `interface{}` is represented by the literal that
`encoding/json` writes for it, which for a whole number in the range of
`uint32` is `uint n`. -/
inductive Number where
  | uint (n : Nat)
  | other (lit : String)
deriving DecidableEq, Repr

/-- A JSON value.  The members of an object are kept in the order of the text;
a Go map nested in a value is represented by its members in the order
`encoding/json` writes them (increasing keys). -/
inductive JSON where
  | null
  | bool (b : Bool)
  | num (n : Number)
  | str (s : String)
  | arr (elems : List JSON)
  | obj (members : List (String × JSON))
deriving Repr

/-- Go `map[string]interface{}`: the entries of the map; the value of a key is
the one of its first entry. -/
abbrev GoMap := List (String × JSON)

/-- The map index expression `v, ok := m[k]`; `none` stands for `(nil, false)`. -/
def GoMap.get (m : GoMap) (k : String) : Option JSON := m.lookup k

/-- The assignment `m[k] = v`. -/
def GoMap.set (m : GoMap) (k : String) (v : JSON) : GoMap :=
  (k, v) :: m.filter fun e => e.1 != k

/-- The loop `for k, v := range src { dst[k] = v }`. -/
def GoMap.assignAll (dst src : GoMap) : GoMap :=
  src.foldr (fun e x => GoMap.set x e.1 e.2) dst

/-- The order of Go strings: lexicographic on bytes. -/
def bytesLess : GoString → GoString → Bool
  | _, [] => false
  | [], _ :: _ => true
  | a :: as, b :: bs => a.toNat < b.toNat || (a == b && bytesLess as bs)

/-- Insertion of a member into a list of members ordered by key. -/
def insertByKey (kv : String × JSON) : List (String × JSON) → List (String × JSON)
  | [] => [kv]
  | m :: ms =>
    if bytesLess (bytes kv.1) (bytes m.1) then kv :: m :: ms else m :: insertByKey kv ms

/-- The entries of a map in the order `encoding/json` writes them: sorted by key. -/
def sortByKey (m : GoMap) : List (String × JSON) := m.foldr insertByKey []

/-- The value of a struct field as `encoding/json` sees it through reflection; the
four kinds are those of the fields of `Client` and of `warnResp`. -/
inductive GoValue where
  | string (s : String)
  | strings (xs : List String)
  | uint32 (n : Nat)
  | iface (v : JSON)
deriving Repr

/-- One entry of the field table that `encoding/json` builds for a struct type:
the key given by the `json` tag, the `omitempty` option, the Go type (for error
texts), and access to the field. -/
structure StructField (σ : Type) where
  name : String
  omitEmpty : Bool
  goType : String
  get : σ → GoValue
  set : σ → GoValue → σ

/-- Go `isEmptyValue` of encoding/json: what `omitempty` leaves out. -/
def GoValue.isEmpty : GoValue → Bool
  | .string s => s == ""
  | .strings xs => xs.isEmpty
  | .uint32 n => n == 0
  | .iface .null => true
  | .iface _ => false

/-- The JSON value `encoding/json` writes for a field value.  (An empty slice is
written only for a field without `omitempty`; the package has none.) -/
def GoValue.encode : GoValue → JSON
  | .string s => .str s
  | .strings xs => .arr (xs.map .str)
  | .uint32 n => .num (.uint n)
  | .iface v => v

/-- Go `json.Marshal(s)` for a struct value: one member per field in the order of
the declaration, the empty `omitempty` fields left out. -/
def json.MarshalStruct {σ : Type} (fields : List (StructField σ)) (s : σ) : JSON :=
  .obj (fields.filterMap fun f =>
    if f.omitEmpty && (f.get s).isEmpty then none else some (f.name, (f.get s).encode))

/-- Go `json.Marshal(x)` for a `map[string]interface{}`: the entries by increasing key. -/
def json.MarshalMap (x : GoMap) : JSON := .obj (sortByKey x)

/-- The name `UnmarshalTypeError` gives to a JSON value. -/
def JSON.kindName : JSON → String
  | .null => "null"
  | .bool _ => "bool"
  | .num (.uint n) => "number " ++ toString n
  | .num (.other lit) => "number " ++ lit
  | .str _ => "string"
  | .arr _ => "array"
  | .obj _ => "object"

/-- Go `json.Unmarshal(b, &x)` for a nil `x` of type `map[string]interface{}`. -/
def json.UnmarshalMap (b : JSON) : GoMap × Option GoError :=
  match b with
  | .obj members => (members.foldl (fun x m => GoMap.set x m.1 m.2) [], none)
  | .null => ([], none)
  | v => ([], some (Errorf (bytes ("json: cannot unmarshal " ++ v.kindName
      ++ " into Go value of type map[string]interface {}"))))

/-- The case folding under which `encoding/json` matches an object key against a
field name.  It is Unicode simple folding; against a name made of lower-case
ASCII letters, digits and `_` (all names of this package), a character matches
exactly when it is the letter, its upper case, or one of the two non-ASCII
characters that fold to an ASCII letter (U+212A to `k`, U+017F to `s`). -/
def foldCode (c : Char) : Nat :=
  let n := c.toNat
  if 65 ≤ n ∧ n ≤ 90 then n + 32
  else if n = 0x212A then 107
  else if n = 0x17F then 115
  else n

/-- Equality of a field name and an object key under case folding. -/
def equalFold (name key : String) : Bool :=
  name.data.map foldCode == key.data.map foldCode

/-- The field an object key is stored in: the field with exactly that name, or
else the first field whose name equals the key under case folding. -/
def findField {σ : Type} (fields : List (StructField σ)) (key : String) :
    Option (StructField σ) :=
  match fields.find? fun f => f.name == key with
  | some f => some f
  | none => fields.find? fun f => equalFold f.name key

/-- Decoding of the elements of a JSON array into a `[]string`: a string is
stored, `null` and values of other kinds leave the element as it was (the zero
value past the old length). -/
def decodeElems : List String → List JSON → List String
  | _, [] => []
  | old, x :: xs =>
    (match x with
      | .str s => s
      | _ => old.headD "") :: decodeElems old.tail xs

/-- Whether `encoding/json` stores the JSON value in a Go `string` without error. -/
def JSON.isStringOrNull : JSON → Bool
  | .str _ => true
  | .null => true
  | _ => false

/-- Decoding of a JSON value into a field holding `old`: the new value of the
field and whether the value was accepted (otherwise an `UnmarshalTypeError` is
recorded and decoding goes on). -/
def GoValue.decode (old : GoValue) (j : JSON) : GoValue × Bool :=
  match old, j with
  | .string _, .str s => (.string s, true)
  | .string s, .null => (.string s, true)
  | .strings old, .arr xs => (.strings (decodeElems old xs), xs.all JSON.isStringOrNull)
  | .strings _, .null => (.strings [], true)
  | .uint32 old, .num (.uint n) => if n < 2 ^ 32 then (.uint32 n, true) else (.uint32 old, false)
  | .uint32 n, .null => (.uint32 n, true)
  | .iface _, v => (.iface v, true)
  | old, _ => (old, false)

/-- The text of an `UnmarshalTypeError` for a struct field. -/
def typeErrorText (struct : String) (name goType : String) (v : JSON) : GoString :=
  bytes ("json: cannot unmarshal " ++ v.kindName ++ " into Go struct field " ++ struct ++ "."
    ++ name ++ " of type " ++ goType)

/-- One member of an object decoded into a struct: the struct and the first error
recorded so far. -/
def decodeMember {σ : Type} (struct : String) (fields : List (StructField σ))
    (st : σ × Option GoError) (m : String × JSON) : σ × Option GoError :=
  match findField fields m.1 with
  | none => st
  | some f =>
    let r := (f.get st.1).decode m.2
    (f.set st.1 r.1,
      if r.2 then st.2
      else match st.2 with
        | some e => some e
        | none => some (Errorf (typeErrorText struct f.name f.goType m.2)))

/-- Go `json.Unmarshal(b, &s)` for a struct `s`: the struct after the call and the
error returned. -/
def json.UnmarshalStruct {σ : Type} (struct : String) (fields : List (StructField σ))
    (b : JSON) (s : σ) : σ × Option GoError :=
  match b with
  | .obj members => members.foldl (decodeMember struct fields) (s, none)
  | .null => (s, none)
  | v => (s, some (Errorf (bytes ("json: cannot unmarshal " ++ v.kindName
      ++ " into Go value of type " ++ struct))))

/-! ## client.go -/

/-- The struct `Client` of client.go.  Strings are valid UTF-8 (the only strings
JSON can carry); a nil slice and an empty slice are not distinguished;
`Autoapprove` holds `JSON.null` for a nil interface. -/
structure Client where
  ClientID : String := ""
  AuthorizedGrantTypes : List String := []
  RedirectURI : List String := []
  Scope : List String := []
  ResourceIds : List String := []
  Authorities : List String := []
  Autoapprove : JSON := .null
  AccessTokenValidity : Nat := 0
  RefreshTokenValidity : Nat := 0
  Allowedproviders : List String := []
  Name : String := ""
  TokenSalt : String := ""
  CreatedWith : String := ""
  RequiredUserGroups : List String := []
  ClientSecret : String := ""
  extra : GoMap := []
deriving Repr

/-- Field table entry for a field of Go type `string`. -/
def stringField {σ : Type} (name : String) (omitEmpty : Bool) (get : σ → String)
    (set : σ → String → σ) : StructField σ where
  name := name
  omitEmpty := omitEmpty
  goType := "string"
  get s := .string (get s)
  set s v := match v with
    | .string x => set s x
    | _ => s

/-- Field table entry for a field of Go type `[]string`. -/
def stringsField {σ : Type} (name : String) (omitEmpty : Bool) (get : σ → List String)
    (set : σ → List String → σ) : StructField σ where
  name := name
  omitEmpty := omitEmpty
  goType := "[]string"
  get s := .strings (get s)
  set s v := match v with
    | .strings x => set s x
    | _ => s

/-- Field table entry for a field of Go type `uint32`. -/
def uint32Field {σ : Type} (name : String) (omitEmpty : Bool) (get : σ → Nat)
    (set : σ → Nat → σ) : StructField σ where
  name := name
  omitEmpty := omitEmpty
  goType := "uint32"
  get s := .uint32 (get s)
  set s v := match v with
    | .uint32 x => set s x
    | _ => s

/-- Field table entry for a field of Go type `interface{}`. -/
def ifaceField {σ : Type} (name : String) (omitEmpty : Bool) (get : σ → JSON)
    (set : σ → JSON → σ) : StructField σ where
  name := name
  omitEmpty := omitEmpty
  goType := "interface {}"
  get s := .iface (get s)
  set s v := match v with
    | .iface x => set s x
    | _ => s

/-- The exported fields of `Client` with their `json` tags, in declaration order
(the unexported field `extra` is invisible to encoding/json). -/
def Client.fields : List (StructField Client) :=
  [ stringField "client_id" false (·.ClientID) (fun c v => { c with ClientID := v }),
    stringsField "authorized_grant_types" true (·.AuthorizedGrantTypes)
      (fun c v => { c with AuthorizedGrantTypes := v }),
    stringsField "redirect_uri" true (·.RedirectURI) (fun c v => { c with RedirectURI := v }),
    stringsField "scope" true (·.Scope) (fun c v => { c with Scope := v }),
    stringsField "resource_ids" true (·.ResourceIds) (fun c v => { c with ResourceIds := v }),
    stringsField "authorities" true (·.Authorities) (fun c v => { c with Authorities := v }),
    ifaceField "autoapprove" true (·.Autoapprove) (fun c v => { c with Autoapprove := v }),
    uint32Field "access_token_validity" true (·.AccessTokenValidity)
      (fun c v => { c with AccessTokenValidity := v }),
    uint32Field "refresh_token_validity" true (·.RefreshTokenValidity)
      (fun c v => { c with RefreshTokenValidity := v }),
    stringsField "allowedproviders" true (·.Allowedproviders)
      (fun c v => { c with Allowedproviders := v }),
    stringField "name" true (·.Name) (fun c v => { c with Name := v }),
    stringField "token_salt" true (·.TokenSalt) (fun c v => { c with TokenSalt := v }),
    stringField "createdwith" true (·.CreatedWith) (fun c v => { c with CreatedWith := v }),
    stringsField "required_user_groups" true (·.RequiredUserGroups)
      (fun c v => { c with RequiredUserGroups := v }),
    stringField "client_secret" true (·.ClientSecret) (fun c v => { c with ClientSecret := v }) ]

/-- The method `(*Client).MarshalJSON`. -/
def Client.MarshalJSON (c : Client) : Except GoError JSON :=
  -- b, err := json.Marshal(*c); encoding the fields of a Client cannot fail
  let b := json.MarshalStruct Client.fields c
  match json.UnmarshalMap b with
  | (_, some err) => .error err
  | (x, none) =>
    let x := GoMap.assignAll x c.extra
    .ok (json.MarshalMap x)

/-- The keys that the `switch` of `(*Client).UnmarshalJSON` skips. -/
def Client.knownKeys : List String :=
  [ "client_id", "authorized_grant_types", "redirect_uri",
    "scope", "resource_ids", "authorities", "autoapprove",
    "access_token_validity", "refresh_token_validity",
    "allowedproviders", "name", "token_salt", "createdwith",
    "required_user_groups", "client_secret" ]

/-- The method `(*Client).UnmarshalJSON`: the receiver after the call and the
error returned. -/
def Client.UnmarshalJSON (c : Client) (b : JSON) : Client × Option GoError :=
  match json.UnmarshalStruct "uaaclient.Client" Client.fields b c with
  | (c, some err) => (c, some err)
  | (c, none) =>
    match json.UnmarshalMap b with
    | (_, some err) => (c, some err)
    | (x, none) =>
      let c := { c with extra := [] }
      let c := x.foldr (fun e c =>
        if Client.knownKeys.contains e.1 then c else { c with extra := GoMap.set c.extra e.1 e.2 }) c
      (c, none)

/-- The method `(*Client).SetExtra`. -/
def Client.SetExtra (c : Client) (key : String) (value : JSON) : Client :=
  { c with extra := GoMap.set c.extra key value }

/-- The method `(*Client).GetExtra`; `none` stands for `(nil, false)`. -/
def Client.GetExtra (c : Client) (key : String) : Option JSON :=
  GoMap.get c.extra key

/-! ## uaaclient.go -/

/-- Go `context.Context`, of which the package only tells nil from non-nil. -/
inductive Context where
  | background
  | other (id : Nat)
deriving DecidableEq, Repr

/-- The struct `Config`. -/
structure Config where
  ClientID : GoString := []
  Secret : GoString := []
  Scheme : GoString := []
  Host : GoString := []
  UAAEndpoint : GoString := []
  RedirectURL : GoString := []
  Scopes : List GoString := []
  Context : Option Context := none
deriving DecidableEq, Repr

/-- Go `oauth2.AuthStyle`. -/
inductive AuthStyle where
  | AuthStyleAutoDetect
  | AuthStyleInParams
  | AuthStyleInHeader
deriving DecidableEq, Repr

/-- Go `oauth2.Endpoint`. -/
structure Endpoint where
  AuthURL : GoString := []
  TokenURL : GoString := []
  AuthStyle : AuthStyle := .AuthStyleAutoDetect
deriving DecidableEq, Repr

/-- Go `oauth2.Config`. -/
structure OAuth2Config where
  ClientID : GoString := []
  ClientSecret : GoString := []
  Endpoint : Endpoint := {}
  RedirectURL : GoString := []
  Scopes : List GoString := []
deriving DecidableEq, Repr

/-- The struct `UaaClient`. -/
structure UaaClient where
  ctx : Option Context
  oauthConfig : OAuth2Config
  config : Config
  uaauri : GoString
  uri : GoString
deriving DecidableEq, Repr

/-- The function `DefaultConfig`. -/
def DefaultConfig : Config where
  ClientID := bytes "oauthClient"
  Scheme := bytes "http"
  Host := bytes "localhost"
  Secret := bytes "secret"
  UAAEndpoint := bytes "/oauth"
  RedirectURL := bytes "/"
  Context := some .background

/-- One hexadecimal digit, lower case. -/
def hexDigit (n : Nat) : UInt8 :=
  if n < 10 then (48 + n).toUInt8 else (87 + n).toUInt8

/-- The verb `%x` of package fmt applied to a byte slice: two digits per byte. -/
def fmtX (b : GoString) : GoString :=
  b.flatMap fun x => [hexDigit (x.toNat / 16), hexDigit (x.toNat % 16)]

/-- The function `simpleUUID`, given what `rand.Read` delivers: the 16 bytes it
wrote into `b`, or `none` when it returned an error. -/
def simpleUUID (rnd : Option GoString) : GoString :=
  match rnd with
  | some b =>
    fmtX (b.take 4) ++ bytes "-" ++ fmtX ((b.drop 4).take 2) ++ bytes "-"
      ++ fmtX ((b.drop 6).take 2) ++ bytes "-" ++ fmtX ((b.drop 8).take 2) ++ bytes "-"
      ++ fmtX ((b.drop 10).take 6)
  | none => []

/-- The function `New`; `rnd` is what `rand.Read` delivers if `simpleUUID` is called. -/
def New (rnd : Option GoString) (cfg : Config) : Option UaaClient × Option GoError :=
  if cfg.ClientID = [] then
    (none, some (Errorf (bytes "ClientID = nil")))
  else
    let cfg := if cfg.Secret = [] then { cfg with Secret := simpleUUID rnd } else cfg
    let cfg := if cfg.Scheme = [] then { cfg with Scheme := bytes "http" } else cfg
    if ¬ (cfg.Scheme = bytes "https" ∨ cfg.Scheme = bytes "http") then
      (none, some (Errorf (bytes "Unknown protocol scheme: [" ++ cfg.Scheme ++ bytes "]")))
    else
      let cfg := if cfg.Context = none then { cfg with Context := some .background } else cfg
      let uri := cfg.Scheme ++ bytes "://" ++ cfg.Host
      let uaauri := uri ++ cfg.UAAEndpoint
      let oauthConfig : OAuth2Config :=
        { ClientID := cfg.ClientID
          ClientSecret := cfg.Secret
          Scopes := cfg.Scopes
          RedirectURL := cfg.RedirectURL
          Endpoint :=
            { AuthURL := cfg.UAAEndpoint ++ bytes "/authorize"
              TokenURL := uaauri ++ bytes "/token"
              AuthStyle := .AuthStyleInParams } }
      (some { ctx := cfg.Context, oauthConfig := oauthConfig, config := cfg,
              uaauri := uaauri, uri := uri }, none)

/-- An outbound `*http.Request` as the package builds it. -/
structure HTTPRequest where
  Method : GoString
  URL : GoString
  Header : List (GoString × GoString) := []
  Body : Option GoString := none
deriving DecidableEq, Repr

/-- What the transport delivers for a request: the status code, the bytes of the
body, and the error (if any) that ends the body in place of the end of file. -/
structure HTTPResponse where
  StatusCode : Int
  Body : GoString
  ReadErr : Option GoError := none
deriving DecidableEq, Repr

/-- The code of other packages that uaaclient.go and clients.go call:
`NewRequestErr method url` is the error of `http.NewRequest` (nil when the method
and the URL are well formed); `Do` is `ctxhttp.Do` with the client's context and
HTTP client; `TokenType` is `(*oauth2.Token).Type`; `Base64` is
`base64.StdEncoding.EncodeToString`; `jsonParse` and `jsonPrint` are the syntax
layer of encoding/json, from bytes to the parse tree and back. -/
structure Env where
  NewRequestErr : GoString → GoString → Option GoError
  Do : HTTPRequest → Except GoError HTTPResponse
  TokenType : OAuth2Token → GoString
  Base64 : GoString → GoString
  jsonParse : GoString → Except GoError JSON
  jsonPrint : JSON → GoString

/-- Go `http.NewRequest(method, url, body)`. -/
def http.NewRequest (env : Env) (method url : GoString) (body : Option GoString) :
    Except GoError HTTPRequest :=
  match env.NewRequestErr method url with
  | some err => .error err
  | none => .ok { Method := method, URL := url, Body := body }

/-- Go `req.Header.Set(key, value)`. -/
def HTTPRequest.HeaderSet (req : HTTPRequest) (key value : GoString) : HTTPRequest :=
  { req with Header := (req.Header.filter fun h => h.1 != key) ++ [(key, value)] }

/-- Go `req.Header.Add(key, value)`. -/
def HTTPRequest.HeaderAdd (req : HTTPRequest) (key value : GoString) : HTTPRequest :=
  { req with Header := req.Header ++ [(key, value)] }

/-- Go `(*oauth2.Token).SetAuthHeader(req)`. -/
def Token.SetAuthHeader (env : Env) (t : Token) (req : HTTPRequest) : HTTPRequest :=
  req.HeaderSet (bytes "Authorization") (env.TokenType t.toOAuth2Token ++ bytes " " ++ t.AccessToken)

/-- The method `(*UaaClient).SetBaseAuth`. -/
def UaaClient.SetBaseAuth (env : Env) (u : UaaClient) (r : HTTPRequest) : HTTPRequest :=
  let base := env.Base64 (u.oauthConfig.ClientID ++ bytes ":" ++ u.oauthConfig.ClientSecret)
  r.HeaderAdd (bytes "Authorization") (bytes "Basic " ++ base)

/-- Go `ioutil.ReadAll(io.LimitReader(r.Body, n))`: at most `n` bytes of the body;
an error of the body is met only when the body ends before the limit. -/
def readAllLimited (r : HTTPResponse) (n : Nat) : Except GoError GoString :=
  if n ≤ r.Body.length then .ok (r.Body.take n)
  else match r.ReadErr with
    | some err => .error err
    | none => .ok r.Body

/-- The method `(*UaaClient).do`: `([]byte, int, error)`, a nil slice being `none`. -/
def UaaClient.do (env : Env) (_u : UaaClient) (req : HTTPRequest) :
    Option GoString × Int × Option GoError :=
  match env.Do req with
  | .error err => (none, 0, some err)
  | .ok r =>
    match readAllLimited r (1 <<< 20) with
    | .error err => (none, 0, some (Errorf (bytes "uaaclient: cannot read body: " ++ err.msg)))
    | .ok body => (some body, r.StatusCode, none)

/-- The local struct `warnResp` of `ValidToken`. -/
structure warnResp where
  Desc : String := ""
deriving DecidableEq, Repr

/-- The field table of `warnResp`. -/
def warnResp.fields : List (StructField warnResp) :=
  [ stringField "error_description" false (·.Desc) (fun r v => { r with Desc := v }) ]

/-- Go `json.Unmarshal(data, &s)` on bytes for a struct: the syntax check and
parse of the library, then the decoding of the tree. -/
def json.Unmarshal {σ : Type} (env : Env) (struct : String) (fields : List (StructField σ))
    (data : GoString) (s : σ) : σ × Option GoError :=
  match env.jsonParse data with
  | .error err => (s, some err)
  | .ok b => json.UnmarshalStruct struct fields b s

/-- The method `(*UaaClient).ValidToken`: the error returned, and the requests
handed to the transport. -/
def UaaClient.ValidToken (env : Env) (u : UaaClient) (t : Token) :
    Option GoError × List HTTPRequest :=
  let path := u.uri ++ bytes "/check_token"
  match http.NewRequest env (bytes "POST") path (some (bytes "token=" ++ t.AccessToken)) with
  | .error err => (some err, [])
  | .ok req =>
    let req := req.HeaderSet (bytes "Content-Type") (bytes "application/x-www-form-urlencoded")
    let req := u.SetBaseAuth env req
    (match u.do env req with
      | (_, _, some err) => some err
      | (res, status, none) =>
        if status = 200 then none
        else if status = 400 then
          match res with
          | some res =>
            match json.Unmarshal env "uaaclient.warnResp" warnResp.fields res ({} : warnResp) with
            | (r, none) => some (Errorf (bytes "Invalid token: " ++ bytes r.Desc))
            | (_, some _) => some (Errorf (bytes "Could not verify token"))
          | none => some (Errorf (bytes "Could not verify token"))
        else if status = 401 then
          some (Errorf (bytes "Failed to decode basic authentication token"))
        else
          let r : GoString := []
          -- if res != nil { r = string(r) }
          let r := if res.isSome then r else r
          some (Errorf (bytes "Error with validation token. Status " ++ fmtD status
            ++ bytes ". Resp: " ++ r)),
      [req])

/-! ## clients.go -/

/-- The constant `clientEndpoint`. -/
def clientEndpoint : GoString := bytes "/clients/"

/-- The struct `Clients`. -/
structure Clients where
  u : UaaClient
deriving DecidableEq, Repr

/-- The method `(*UaaClient).Clients`. -/
def UaaClient.Clients (u : UaaClient) : Clients := ⟨u⟩

/-- The verb `%v` of package fmt applied to a byte slice: the bytes in decimal,
separated by blanks, between brackets. -/
def fmtV (b : Option GoString) : GoString :=
  bytes "[" ++ (bytes " ").intercalate ((b.getD []).map fun x => fmtD x.toNat) ++ bytes "]"

/-- The method `(*Clients).Create`: `(bool, error)`, and the requests handed to
the transport. -/
def Clients.Create (env : Env) (c : Clients) (t : Token) (client : Client) :
    (Bool × Option GoError) × List HTTPRequest :=
  match client.MarshalJSON with
  | .error err => ((false, some err), [])
  | .ok b =>
    let path := c.u.uaauri ++ clientEndpoint
    match http.NewRequest env (bytes "POST") path (some (env.jsonPrint b)) with
    | .error err => ((false, some err), [])
    | .ok req =>
      let req := req.HeaderSet (bytes "Content-Type") (bytes "application/json")
      let req := t.SetAuthHeader env req
      (match c.u.do env req with
        | (_, _, some err) => (false, some err)
        | (resp, status, none) =>
          if status = 201 then (true, none)
          else if status = 409 then
            (true, some (Errorf (bytes "uaaclient: Client already exists: "
              ++ bytes client.ClientID)))
          else if status = 400 then
            (false, some (Errorf (bytes "uaaclient: Invalid request: " ++ resp.getD [])))
          else
            (false, some (Errorf (bytes "uaaclient: Cannot create client "
              ++ bytes client.ClientID ++ bytes ". Status " ++ fmtD status ++ bytes ". "
              ++ fmtV resp))),
        [req])

/-- The method `(*Clients).Delete`: `(int, error)`, and the requests handed to the
transport. -/
def Clients.Delete (env : Env) (c : Clients) (t : Token) (_clientID : GoString) :
    (Int × Option GoError) × List HTTPRequest :=
  let path := c.u.uaauri ++ clientEndpoint
  match http.NewRequest env (bytes "DELETE") path none with
  | .error err => ((-1, some err), [])
  | .ok req =>
    let req := t.SetAuthHeader env req
    (match c.u.do env req with
      | (_, status, some err) => (status, some err)
      | (_, status, none) => (status, none),
      [req])

/-- The method `(*Clients).Get`: `(*Client, error)`, and the requests handed to
the transport. -/
def Clients.Get (env : Env) (c : Clients) (t : Token) (clientID : GoString) :
    (Option Client × Option GoError) × List HTTPRequest :=
  let path := c.u.uaauri ++ clientEndpoint ++ clientID
  match http.NewRequest env (bytes "GET") path none with
  | .error err => ((none, some err), [])
  | .ok req =>
    let req := t.SetAuthHeader env req
    (match c.u.do env req with
      | (_, _, some err) => (none, some err)
      | (resp, status, none) =>
        if status = 404 then
          (none, some (Errorf (bytes "uaaclient: Client " ++ clientID ++ bytes " not found")))
        else if status = 200 then
          match env.jsonParse (resp.getD []) with
          | .error err => (none, some err)
          | .ok b =>
            match Client.UnmarshalJSON {} b with
            | (_, some err) => (none, some err)
            | (client, none) => (some client, none)
        else
          (none, some (Errorf (bytes "uaaclient: Cannot fetch client " ++ clientID
            ++ bytes ". Status " ++ fmtD status))),
      [req])

/-! ## Stand-ins for examples -/

/-- A stand-in for the libraries and the network, used in examples: every URL
is accepted, every request is answered with the given status and body, and
the JSON parser knows one text, the answer of the identity service to an
expired token. -/
def exampleEnv (status : Int) (body : GoString) : Env where
  NewRequestErr _ _ := none
  Do _ := .ok { StatusCode := status, Body := body }
  TokenType _ := bytes "Bearer"
  Base64 s := s
  jsonParse data :=
    if data = bytes "\x7b\"error\":\"invalid_token\",\"error_description\":\"token expired\"\x7d" then
      .ok (.obj [("error", .str "invalid_token"), ("error_description", .str "token expired")])
    else .error (Errorf (bytes "invalid character"))
  jsonPrint _ := bytes "\x7b\x7d"

/-- The client that `New` builds from `DefaultConfig`. -/
def exampleClient : UaaClient :=
  { ctx := some .background
    oauthConfig :=
      { ClientID := bytes "oauthClient"
        ClientSecret := bytes "secret"
        RedirectURL := bytes "/"
        Endpoint :=
          { AuthURL := bytes "/oauth/authorize"
            TokenURL := bytes "http://localhost/oauth/token"
            AuthStyle := .AuthStyleInParams } }
    config := DefaultConfig
    uaauri := bytes "http://localhost/oauth"
    uri := bytes "http://localhost" }

/-- The request that `ValidToken` builds for `exampleClient` and the zero token. -/
def exampleCheckTokenRequest : HTTPRequest :=
  { Method := bytes "POST"
    URL := bytes "http://localhost/check_token"
    Header :=
      [ (bytes "Content-Type", bytes "application/x-www-form-urlencoded"),
        (bytes "Authorization", bytes "Basic oauthClient:secret") ]
    Body := some (bytes "token=") }

/-- The request that `Create` builds for `exampleClient` and the zero token. -/
def exampleCreateRequest : HTTPRequest :=
  { Method := bytes "POST"
    URL := bytes "http://localhost/oauth/clients/"
    Header :=
      [ (bytes "Content-Type", bytes "application/json"),
        (bytes "Authorization", bytes "Bearer ") ]
    Body := some (bytes "\x7b\x7d") }

/-- A client registration with an extension entry, `foo: bar`. -/
def exampleRegistration : Client :=
  Client.SetExtra { ClientID := "c1", Scope := ["a", "b"], AccessTokenValidity := 3600 }
    "foo" (.str "bar")

/-- A client registration whose extension entry bears the name of a known key. -/
def exampleCollision : Client :=
  Client.SetExtra { ClientID := "c1" } "client_id" (.str "x")

/-! # Theorems -/

/-! ## Lemmas on strings -/

theorem bytes_Bearer : bytes "Bearer" = [66, 101, 97, 114, 101, 114] := by decide

theorem bytes_Bearer_space : bytes "Bearer " = [66, 101, 97, 114, 101, 114, 32] := by decide

theorem Contains_iff (s sub : GoString) : strings.Contains s sub = true ↔ sub <:+: s := by
  unfold strings.Contains
  rw [List.any_eq_true]
  constructor
  · rintro ⟨t, ht, hp⟩
    rw [List.mem_tails] at ht
    rw [List.isPrefixOf_iff_prefix] at hp
    exact List.infix_iff_prefix_suffix.mpr ⟨t, hp, ht⟩
  · intro h
    obtain ⟨t, hp, ht⟩ := List.infix_iff_prefix_suffix.mp h
    exact ⟨t, (List.mem_tails _ _).mpr ht, List.isPrefixOf_iff_prefix.mpr hp⟩

theorem Contains_append_right (a b : GoString) : strings.Contains (a ++ b) b = true :=
  (Contains_iff _ _).mpr ⟨a, [], by simp⟩

/-! ## token.go -/

theorem UnsafeParsePayload_parse_error {J : Type} (jose : Jose J) (t : Token) (e : GoError)
    (h : jose.ParseSigned t.AccessToken = .error e) :
    Token.UnsafeParsePayload jose t = (t, some (Errorf (bytes "Cannot parse token: " ++ e.msg))) := by
  simp [Token.UnsafeParsePayload, h]

theorem UnsafeParsePayload_claims_error {J : Type} (jose : Jose J) (t : Token) (j : J) (e : GoError)
    (h : jose.ParseSigned t.AccessToken = .ok j)
    (hc : jose.UnsafeClaimsWithoutVerification j = .error e) :
    Token.UnsafeParsePayload jose t
      = (t, some (Errorf (bytes "Cannot parse token payload: " ++ e.msg))) := by
  simp [Token.UnsafeParsePayload, h, hc]

theorem UnsafeParsePayload_ok {J : Type} (jose : Jose J) (t : Token) (j : J) (p : Payload)
    (h : jose.ParseSigned t.AccessToken = .ok j)
    (hc : jose.UnsafeClaimsWithoutVerification j = .ok p) :
    Token.UnsafeParsePayload jose t
      = ({ t with Payload := { p with Iat := time.Unix p.IatRaw 0, Exp := time.Unix p.ExpRaw 0 } },
          none) := by
  simp [Token.UnsafeParsePayload, h, hc]

theorem TokenFromHeader_of_sliced {J : Type} (jose : Jose J) (r : Request) (v s : GoString)
    (h : Header.Get r.Header (bytes "Authorization") = v) (hne : v ≠ [])
    (hp : strings.HasPrefix v (bytes "Bearer") = true) (hs : sliceFrom v 7 = .returns s) :
    TokenFromHeader jose r =
      match Token.UnsafeParsePayload jose { AccessToken := s, TokenType := bytes "bearer" } with
      | (token, some err) => .returns (some token, true, some err)
      | (token, none) => .returns (some { token with Expiry := token.Payload.Exp }, true, none) := by
  unfold TokenFromHeader
  simp only [h, hne, hp, hs, if_true, if_false, Outcome.bind]

/-- C5. For a request whose Authorization header is `Bearer ` followed by `s`,
`TokenFromHeader` returns a token and the flag true; the token has access token `s` and
type `bearer`.  If `s` parses as a signed JWT with claims `p`, the error is nil, the payload
is `p` with `Iat` and `Exp` the instants `p.IatRaw` and `p.ExpRaw` seconds after the Unix
epoch, and the expiry of the token is `Payload.Exp`.  If `s` does not parse, the error is not
nil and the payload and the expiry of the returned token are zero values. -/
theorem TokenFromHeader_bearer_token {J : Type} (jose : Jose J) (r : Request) (s : GoString)
    (h : Header.Get r.Header (bytes "Authorization") = bytes "Bearer " ++ s) :
    ∃ tok err, TokenFromHeader jose r = .returns (some tok, true, err)
      ∧ tok.AccessToken = s ∧ tok.TokenType = bytes "bearer"
      ∧ (∀ j p, jose.ParseSigned s = .ok j → jose.UnsafeClaimsWithoutVerification j = .ok p →
          err = none
          ∧ tok.Payload = { p with Iat := time.Unix p.IatRaw 0, Exp := time.Unix p.ExpRaw 0 }
          ∧ tok.Payload.Iat.Unix = p.IatRaw ∧ tok.Payload.Iat.nsec = 0
          ∧ tok.Payload.Exp.Unix = p.ExpRaw ∧ tok.Payload.Exp.nsec = 0
          ∧ tok.Expiry = tok.Payload.Exp)
      ∧ ((∀ j p, jose.ParseSigned s = .ok j → jose.UnsafeClaimsWithoutVerification j ≠ .ok p) →
          err ≠ none ∧ tok.Payload = {} ∧ tok.Expiry = Time.zero) := by
  have hs : sliceFrom (bytes "Bearer " ++ s) 7 = .returns s := by
    simp [sliceFrom, bytes_Bearer_space]
  have hne : bytes "Bearer " ++ s ≠ [] := by simp [bytes_Bearer_space]
  have hp : strings.HasPrefix (bytes "Bearer " ++ s) (bytes "Bearer") = true := by
    simp [strings.HasPrefix, bytes_Bearer_space, bytes_Bearer]
  rw [TokenFromHeader_of_sliced jose r _ s h hne hp hs]
  cases hj : jose.ParseSigned s with
  | error e =>
    rw [UnsafeParsePayload_parse_error jose _ e hj]
    refine ⟨_, _, rfl, rfl, rfl, ?_, ?_⟩
    · intro j p h1; cases h1
    · intro _; exact ⟨by simp, rfl, rfl⟩
  | ok j =>
    cases hc : jose.UnsafeClaimsWithoutVerification j with
    | error e =>
      rw [UnsafeParsePayload_claims_error jose _ j e hj hc]
      refine ⟨_, _, rfl, rfl, rfl, ?_, ?_⟩
      · intro j' p h1 h2; cases h1; rw [hc] at h2; cases h2
      · intro _; exact ⟨by simp, rfl, rfl⟩
    | ok p =>
      rw [UnsafeParsePayload_ok jose _ j p hj hc]
      refine ⟨_, _, rfl, rfl, rfl, ?_, ?_⟩
      · intro j' p' h1 h2; cases h1; rw [hc] at h2; cases h2
        simp [time.Unix, Time.Unix]
      · intro hno; exact absurd hc (hno j p rfl)

/-- Witness of C5: the header `Bearer h.p.s` with the stand-in for go-jose, for which
`h.p.s` parses with `iat = 1000` and `exp = 2000`. -/
theorem TokenFromHeader_bearer_token_witness :
    ∃ tok err, TokenFromHeader exampleJose (requestWithAuthorization (bytes "Bearer h.p.s"))
        = .returns (some tok, true, err)
      ∧ tok.AccessToken = bytes "h.p.s" ∧ tok.TokenType = bytes "bearer"
      ∧ (∀ j p, exampleJose.ParseSigned (bytes "h.p.s") = .ok j →
          exampleJose.UnsafeClaimsWithoutVerification j = .ok p →
          err = none
          ∧ tok.Payload = { p with Iat := time.Unix p.IatRaw 0, Exp := time.Unix p.ExpRaw 0 }
          ∧ tok.Payload.Iat.Unix = p.IatRaw ∧ tok.Payload.Iat.nsec = 0
          ∧ tok.Payload.Exp.Unix = p.ExpRaw ∧ tok.Payload.Exp.nsec = 0
          ∧ tok.Expiry = tok.Payload.Exp)
      ∧ ((∀ j p, exampleJose.ParseSigned (bytes "h.p.s") = .ok j →
            exampleJose.UnsafeClaimsWithoutVerification j ≠ .ok p) →
          err ≠ none ∧ tok.Payload = {} ∧ tok.Expiry = Time.zero) :=
  TokenFromHeader_bearer_token exampleJose (requestWithAuthorization (bytes "Bearer h.p.s"))
    (bytes "h.p.s") (by decide)

/-- C1 (the code at the failing input).  The header `BearerXabc` is not empty and does not
start with `Bearer ` (seven characters), yet `TokenFromHeader` does not return a nil token:
it passes the six-character check, drops seven characters and returns a token whose access
token is `abc`, whatever go-jose makes of `abc`. -/
theorem TokenFromHeader_BearerX_yields_token {J : Type} (jose : Jose J) :
    bytes "BearerXabc" ≠ []
    ∧ strings.HasPrefix (bytes "BearerXabc") (bytes "Bearer ") = false
    ∧ ∃ tok err, TokenFromHeader jose (requestWithAuthorization (bytes "BearerXabc"))
          = .returns (some tok, true, err)
        ∧ tok.AccessToken = bytes "abc" := by
  refine ⟨by decide, by decide, ?_⟩
  have hg : Header.Get (requestWithAuthorization (bytes "BearerXabc")).Header (bytes "Authorization")
      = bytes "BearerXabc" := by decide
  have hs : sliceFrom (bytes "BearerXabc") 7 = .returns (bytes "abc") := by decide
  have hne : bytes "BearerXabc" ≠ [] := by decide
  have hp : strings.HasPrefix (bytes "BearerXabc") (bytes "Bearer") = true := by decide
  rw [TokenFromHeader_of_sliced jose _ _ _ hg hne hp hs]
  cases hj : jose.ParseSigned (bytes "abc") with
  | error e =>
    rw [UnsafeParsePayload_parse_error jose _ e hj]; exact ⟨_, _, rfl, rfl⟩
  | ok j =>
    cases hc : jose.UnsafeClaimsWithoutVerification j with
    | error e => rw [UnsafeParsePayload_claims_error jose _ j e hj hc]; exact ⟨_, _, rfl, rfl⟩
    | ok p => rw [UnsafeParsePayload_ok jose _ j p hj hc]; exact ⟨_, _, rfl, rfl⟩

/-- C9 (the code at the failing input).  The six-character header `Bearer` passes the
check `strings.HasPrefix(tokenStr, "Bearer")`, and the slice expression `tokenStr[7:]` then
panics: `TokenFromHeader` returns no result. -/
theorem TokenFromHeader_Bearer_panics {J : Type} (jose : Jose J) :
    strings.HasPrefix (bytes "Bearer") (bytes "Bearer") = true
    ∧ (bytes "Bearer").length = 6
    ∧ TokenFromHeader jose (requestWithAuthorization (bytes "Bearer"))
        = .panics (bytes "runtime error: slice bounds out of range [7:6]") := by
  refine ⟨by decide, by decide, ?_⟩
  have hg : Header.Get (requestWithAuthorization (bytes "Bearer")).Header (bytes "Authorization")
      = bytes "Bearer" := by decide
  have hs : sliceFrom (bytes "Bearer") 7
      = .panics (bytes "runtime error: slice bounds out of range [7:6]") := by decide
  have hne : bytes "Bearer" ≠ [] := by decide
  have hp : strings.HasPrefix (bytes "Bearer") (bytes "Bearer") = true := by decide
  unfold TokenFromHeader
  simp only [hg, hne, hp, hs, if_true, if_false, Outcome.bind]

/-! ## uaaclient.go: New -/

/-- C7. `New` returns an error exactly when the ClientID is empty or the Scheme is neither
empty nor `http` nor `https`, and then it returns no client; when it returns no error, the
configuration held by the client has the ClientID of `cfg` (not empty), a Scheme that is
`http` or `https` (`http` for an empty Scheme, the Scheme of `cfg` otherwise) and the Secret
of `cfg` when that is not empty (the generated one otherwise). -/
theorem New_error_iff (rnd : Option GoString) (cfg : Config) :
    ((New rnd cfg).2 ≠ none ↔
        cfg.ClientID = [] ∨
          (cfg.Scheme ≠ [] ∧ cfg.Scheme ≠ bytes "http" ∧ cfg.Scheme ≠ bytes "https"))
    ∧ ((New rnd cfg).2 ≠ none → (New rnd cfg).1 = none)
    ∧ ((New rnd cfg).2 = none →
        ∃ u, (New rnd cfg).1 = some u
          ∧ u.config.ClientID = cfg.ClientID ∧ u.config.ClientID ≠ []
          ∧ (u.config.Scheme = bytes "http" ∨ u.config.Scheme = bytes "https")
          ∧ (cfg.Scheme = [] → u.config.Scheme = bytes "http")
          ∧ (cfg.Scheme ≠ [] → u.config.Scheme = cfg.Scheme)
          ∧ (cfg.Secret ≠ [] → u.config.Secret = cfg.Secret)
          ∧ (cfg.Secret = [] → u.config.Secret = simpleUUID rnd)) := by
  have hhttp : bytes "http" ≠ [] := by decide
  have hhttps : bytes "https" ≠ [] := by decide
  have hne : bytes "http" ≠ bytes "https" := by decide
  have hne2 : bytes "https" ≠ bytes "http" := by decide
  rcases cfg with ⟨id, sec, sch, host, ep, red, scopes, ctx⟩
  simp only [New]
  by_cases hid : id = []
  · simp [hid]
  · by_cases hsch : sch = []
    · subst hsch
      by_cases hsec : sec = [] <;> cases ctx <;> simp [hid, hsec, hhttp, hne]
    · by_cases h1 : sch = bytes "https"
      · subst h1
        by_cases hsec : sec = [] <;> cases ctx <;> simp [hid, hsec, hhttps, hne2]
      · by_cases h2 : sch = bytes "http"
        · subst h2
          by_cases hsec : sec = [] <;> cases ctx <;> simp [hid, hsec, hhttp, hne]
        · by_cases hsec : sec = [] <;> cases ctx <;> simp [hid, hsec, hsch, h1, h2]

/-! ## The requests sent -/

theorem MarshalJSON_ok (c : Client) : ∃ b, c.MarshalJSON = .ok b := by
  simp [Client.MarshalJSON, json.MarshalStruct, json.UnmarshalMap]

theorem ValidToken_sent (env : Env) (u : UaaClient) (t : Token) :
    (∀ req ∈ (u.ValidToken env t).2,
        req.Method = bytes "POST" ∧ req.URL = u.uri ++ bytes "/check_token")
    ∧ (env.NewRequestErr (bytes "POST") (u.uri ++ bytes "/check_token") = none →
        ∃ req, (u.ValidToken env t).2 = [req]) := by
  unfold UaaClient.ValidToken
  simp only [http.NewRequest]
  cases hn : env.NewRequestErr (bytes "POST") (u.uri ++ bytes "/check_token") with
  | some e => simp
  | none => simp [UaaClient.SetBaseAuth, HTTPRequest.HeaderAdd, HTTPRequest.HeaderSet]

theorem Create_sent (env : Env) (c : Clients) (t : Token) (client : Client) :
    (∀ req ∈ (c.Create env t client).2,
        req.Method = bytes "POST" ∧ req.URL = c.u.uaauri ++ bytes "/clients/")
    ∧ (env.NewRequestErr (bytes "POST") (c.u.uaauri ++ bytes "/clients/") = none →
        ∃ req, (c.Create env t client).2 = [req]) := by
  obtain ⟨b, hb⟩ := MarshalJSON_ok client
  have hce : clientEndpoint = bytes "/clients/" := rfl
  unfold Clients.Create
  simp only [hb, http.NewRequest, hce]
  cases hn : env.NewRequestErr (bytes "POST") (c.u.uaauri ++ bytes "/clients/") with
  | some e => simp
  | none => simp [Token.SetAuthHeader, HTTPRequest.HeaderSet]

theorem Delete_sent (env : Env) (c : Clients) (t : Token) (clientID : GoString) :
    (∀ req ∈ (c.Delete env t clientID).2,
        req.Method = bytes "DELETE" ∧ req.URL = c.u.uaauri ++ bytes "/clients/")
    ∧ (env.NewRequestErr (bytes "DELETE") (c.u.uaauri ++ bytes "/clients/") = none →
        ∃ req, (c.Delete env t clientID).2 = [req]) := by
  have hce : clientEndpoint = bytes "/clients/" := rfl
  unfold Clients.Delete
  simp only [http.NewRequest, hce]
  cases hn : env.NewRequestErr (bytes "DELETE") (c.u.uaauri ++ bytes "/clients/") with
  | some e => simp
  | none => simp [Token.SetAuthHeader, HTTPRequest.HeaderSet]

theorem Get_sent (env : Env) (c : Clients) (t : Token) (clientID : GoString) :
    (∀ req ∈ (c.Get env t clientID).2,
        req.Method = bytes "GET" ∧ req.URL = c.u.uaauri ++ bytes "/clients/" ++ clientID)
    ∧ (env.NewRequestErr (bytes "GET") (c.u.uaauri ++ bytes "/clients/" ++ clientID) = none →
        ∃ req, (c.Get env t clientID).2 = [req]) := by
  have hce : clientEndpoint = bytes "/clients/" := rfl
  unfold Clients.Get
  simp only [http.NewRequest, hce]
  cases hn : env.NewRequestErr (bytes "GET") (c.u.uaauri ++ bytes "/clients/" ++ clientID) with
  | some e => simp
  | none => simp [Token.SetAuthHeader, HTTPRequest.HeaderSet]

/-! ## uaaclient.go: ValidToken -/

/-- C2 (the code at the failing input).  The identity service answers `/check_token` with
status 500 and body `boom`: the error of `ValidToken` carries the status code but not the body;
the text after `Resp: ` is empty. -/
theorem ValidToken_status_500_drops_body :
    (UaaClient.ValidToken (exampleEnv 500 (bytes "boom")) exampleClient {}).1
      = some (Errorf (bytes "Error with validation token. Status 500. Resp: "))
    ∧ strings.Contains (bytes "Error with validation token. Status 500. Resp: ") (bytes "boom")
      = false := by
  constructor
  · decide
  · decide

theorem decodeMember_skip {σ : Type} (struct : String) (fields : List (StructField σ))
    (st : σ × Option GoError) (m : String × JSON) (h : findField fields m.1 = none) :
    decodeMember struct fields st m = st := by
  simp [decodeMember, h]

theorem foldl_decodeMember_skip {σ : Type} (struct : String) (fields : List (StructField σ))
    (ms : List (String × JSON)) (st : σ × Option GoError)
    (h : ∀ m ∈ ms, findField fields m.1 = none) :
    ms.foldl (decodeMember struct fields) st = st := by
  induction ms generalizing st with
  | nil => rfl
  | cons m ms ih =>
    rw [List.foldl_cons, decodeMember_skip struct fields st m (h m (List.mem_cons_self _ _))]
    exact ih st fun m' hm' => h m' (List.mem_cons_of_mem _ hm')

theorem findField_warnResp_none (key : String)
    (h : equalFold "error_description" key = false) :
    findField warnResp.fields key = none := by
  have hne : ("error_description" == key) = false := by
    by_contra hc
    simp only [Bool.not_eq_false, beq_iff_eq] at hc
    subst hc
    revert h
    decide
  simp [findField, warnResp.fields, stringField, List.find?, hne, h]

theorem UnmarshalStruct_warnResp (pre post : List (String × JSON)) (d : String)
    (hpre : ∀ m ∈ pre, equalFold "error_description" m.1 = false)
    (hpost : ∀ m ∈ post, equalFold "error_description" m.1 = false) :
    json.UnmarshalStruct "uaaclient.warnResp" warnResp.fields
      (.obj (pre ++ [("error_description", .str d)] ++ post)) ({} : warnResp)
      = ({ Desc := d }, none) := by
  simp only [json.UnmarshalStruct, List.foldl_append, List.foldl_cons, List.foldl_nil]
  rw [foldl_decodeMember_skip _ _ pre _ fun m hm => findField_warnResp_none m.1 (hpre m hm)]
  rw [foldl_decodeMember_skip _ _ post _ fun m hm => findField_warnResp_none m.1 (hpost m hm)]
  rfl

/-- C4. The request of `ValidToken` is answered with status 400 and body `res`.  The error
returned is not nil.  If the body is a JSON object with a member `error_description` holding
the string `d` (and no other member whose key is a spelling of `error_description`), or more
generally if `json.Unmarshal` accepts the body and finds the description `d`, the error is
`Invalid token: d`, which contains `d`.  If the body is not JSON, or more generally if
`json.Unmarshal` rejects it, the error is `Could not verify token`. -/
theorem ValidToken_status_400 (env : Env) (u : UaaClient) (t : Token) (req : HTTPRequest)
    (res : GoString)
    (hsent : (u.ValidToken env t).2 = [req])
    (hdo : u.do env req = (some res, 400, none)) :
    (u.ValidToken env t).1 ≠ none
    ∧ (∀ pre post d, env.jsonParse res
          = .ok (.obj (pre ++ [("error_description", .str d)] ++ post)) →
        (∀ m ∈ pre ++ post, equalFold "error_description" m.1 = false) →
        (u.ValidToken env t).1 = some (Errorf (bytes "Invalid token: " ++ bytes d))
        ∧ strings.Contains (bytes "Invalid token: " ++ bytes d) (bytes d) = true)
    ∧ (∀ r, json.Unmarshal env "uaaclient.warnResp" warnResp.fields res {} = (r, none) →
        (u.ValidToken env t).1 = some (Errorf (bytes "Invalid token: " ++ bytes r.Desc))
        ∧ strings.Contains (bytes "Invalid token: " ++ bytes r.Desc) (bytes r.Desc) = true)
    ∧ (∀ e, env.jsonParse res = .error e →
        (u.ValidToken env t).1 = some (Errorf (bytes "Could not verify token")))
    ∧ (∀ r e, json.Unmarshal env "uaaclient.warnResp" warnResp.fields res {} = (r, some e) →
        (u.ValidToken env t).1 = some (Errorf (bytes "Could not verify token"))) := by
  unfold UaaClient.ValidToken at hsent ⊢
  simp only [http.NewRequest] at hsent ⊢
  cases hn : env.NewRequestErr (bytes "POST") (u.uri ++ bytes "/check_token") with
  | some e => simp [hn] at hsent
  | none =>
    simp only [hn, List.cons.injEq, and_true] at hsent ⊢
    rw [hsent, hdo]
    have h400 : ¬ ((400 : Int) = 200) := by decide
    simp only [h400, if_false, if_true]
    have key : ∀ r, json.Unmarshal env "uaaclient.warnResp" warnResp.fields res {} = (r, none) →
        (match json.Unmarshal env "uaaclient.warnResp" warnResp.fields res ({} : warnResp) with
          | (r, none) => some (Errorf (bytes "Invalid token: " ++ bytes r.Desc))
          | (_, some _) => some (Errorf (bytes "Could not verify token")))
          = some (Errorf (bytes "Invalid token: " ++ bytes r.Desc)) := by
      intro r h; rw [h]
    have key2 : ∀ r e, json.Unmarshal env "uaaclient.warnResp" warnResp.fields res {} = (r, some e) →
        (match json.Unmarshal env "uaaclient.warnResp" warnResp.fields res ({} : warnResp) with
          | (r, none) => some (Errorf (bytes "Invalid token: " ++ bytes r.Desc))
          | (_, some _) => some (Errorf (bytes "Could not verify token")))
          = some (Errorf (bytes "Could not verify token")) := by
      intro r e h; rw [h]
    refine ⟨?_, ?_, ?_, ?_, ?_⟩
    · rcases hu : json.Unmarshal env "uaaclient.warnResp" warnResp.fields res {} with ⟨r, _ | e⟩
        <;> simp
    · intro pre post d hp hother
      have hu : json.Unmarshal env "uaaclient.warnResp" warnResp.fields res {}
          = (({ Desc := d } : warnResp), none) := by
        simp only [json.Unmarshal, hp]
        exact UnmarshalStruct_warnResp pre post d
          (fun m hm => hother m (List.mem_append_left _ hm))
          (fun m hm => hother m (List.mem_append_right _ hm))
      exact ⟨key _ hu, Contains_append_right _ _⟩
    · intro r hu
      exact ⟨key r hu, Contains_append_right _ _⟩
    · intro e he
      exact key2 {} e (by simp [json.Unmarshal, he])
    · intro r e hu
      exact key2 r e hu

/-- Witness of C4: the identity service answers with status 400 and the body
`{"error":"invalid_token","error_description":"token expired"}`; the error of `ValidToken`
is `Invalid token: token expired`. -/
theorem ValidToken_status_400_witness :
    (UaaClient.ValidToken
        (exampleEnv 400
          (bytes "\x7b\"error\":\"invalid_token\",\"error_description\":\"token expired\"\x7d"))
        exampleClient {}).1
      = some (Errorf (bytes "Invalid token: " ++ bytes "token expired"))
    ∧ strings.Contains (bytes "Invalid token: " ++ bytes "token expired") (bytes "token expired")
      = true :=
  (ValidToken_status_400
    (exampleEnv 400
      (bytes "\x7b\"error\":\"invalid_token\",\"error_description\":\"token expired\"\x7d"))
    exampleClient {} exampleCheckTokenRequest
    (bytes "\x7b\"error\":\"invalid_token\",\"error_description\":\"token expired\"\x7d")
    (by decide) (by decide)).2.1 [("error", .str "invalid_token")] [] "token expired"
    (by simp [exampleEnv]) (by decide)

/-! ## clients.go: Create -/

/-- C6. The request of `Create` is answered with status `s` and body `resp`.  The flag
returned is true exactly when `s` is 201 or 409; the error is nil exactly when `s` is 201;
for 409 the error is `uaaclient: Client already exists: ` followed by the ClientID; for 400
it is `uaaclient: Invalid request: ` followed by the body; for any other status the flag is
false and the error is `uaaclient: Cannot create client ...`. -/
theorem Create_by_status (env : Env) (c : Clients) (t : Token) (client : Client)
    (req : HTTPRequest) (resp : Option GoString) (s : Int)
    (hsent : (c.Create env t client).2 = [req])
    (hdo : c.u.do env req = (resp, s, none)) :
    ((c.Create env t client).1.1 = true ↔ s = 201 ∨ s = 409)
    ∧ ((c.Create env t client).1.2 = none ↔ s = 201)
    ∧ (s = 409 →
        (c.Create env t client).1.2
          = some (Errorf (bytes "uaaclient: Client already exists: " ++ bytes client.ClientID))
        ∧ strings.Contains
            (bytes "uaaclient: Client already exists: " ++ bytes client.ClientID)
            (bytes client.ClientID) = true)
    ∧ (s = 400 →
        (c.Create env t client).1.2
          = some (Errorf (bytes "uaaclient: Invalid request: " ++ resp.getD []))
        ∧ strings.Contains (bytes "uaaclient: Invalid request: " ++ resp.getD []) (resp.getD [])
            = true)
    ∧ (s ≠ 201 → s ≠ 409 → s ≠ 400 →
        (c.Create env t client).1
          = (false, some (Errorf (bytes "uaaclient: Cannot create client "
              ++ bytes client.ClientID ++ bytes ". Status " ++ fmtD s ++ bytes ". "
              ++ fmtV resp)))) := by
  obtain ⟨b, hb⟩ := MarshalJSON_ok client
  unfold Clients.Create at hsent ⊢
  simp only [hb, http.NewRequest] at hsent ⊢
  cases hn : env.NewRequestErr (bytes "POST") (c.u.uaauri ++ clientEndpoint) with
  | some e => simp [hn] at hsent
  | none =>
    simp only [hn, List.cons.injEq, and_true] at hsent ⊢
    rw [hsent, hdo]
    refine ⟨?_, ?_, ?_, ?_, ?_⟩
    · by_cases h1 : s = 201
      · simp [h1]
      · by_cases h2 : s = 409
        · simp [h2]
        · by_cases h3 : s = 400 <;> simp [h1, h2, h3]
    · by_cases h1 : s = 201
      · simp [h1]
      · by_cases h2 : s = 409
        · simp [h2]
        · by_cases h3 : s = 400 <;> simp [h1, h2, h3]
    · intro h2; subst h2
      exact ⟨by simp, Contains_append_right _ _⟩
    · intro h3; subst h3
      exact ⟨by simp, Contains_append_right _ _⟩
    · intro h1 h2 h3
      simp [h1, h2, h3]

/-- Witness of C6: the client `c1` is created and the identity service answers 409; `Create`
returns true and the error `uaaclient: Client already exists: c1`. -/
theorem Create_by_status_witness :
    (Clients.Create (exampleEnv 409 []) ⟨exampleClient⟩ {} { ClientID := "c1" }).1.1 = true
    ∧ (Clients.Create (exampleEnv 409 []) ⟨exampleClient⟩ {} { ClientID := "c1" }).1.2
        = some (Errorf (bytes "uaaclient: Client already exists: " ++ bytes "c1")) :=
  have h := Create_by_status (exampleEnv 409 []) ⟨exampleClient⟩ {} { ClientID := "c1" }
    exampleCreateRequest (some []) 409 (by decide) (by decide)
  ⟨h.1.mpr (Or.inr rfl), (h.2.2.1 rfl).1⟩

/-! ## The endpoints -/

theorem New_uris (rnd : Option GoString) (cfg : Config) (u : UaaClient)
    (h : New rnd cfg = (some u, none)) :
    u.uri = u.config.Scheme ++ bytes "://" ++ cfg.Host
    ∧ u.uaauri = u.uri ++ cfg.UAAEndpoint
    ∧ u.oauthConfig.Endpoint.AuthURL = cfg.UAAEndpoint ++ bytes "/authorize"
    ∧ u.oauthConfig.Endpoint.TokenURL = u.uaauri ++ bytes "/token"
    ∧ (cfg.Scheme ≠ [] → u.config.Scheme = cfg.Scheme)
    ∧ (cfg.Scheme = [] → u.config.Scheme = bytes "http") := by
  have hhttp : bytes "http" ≠ [] := by decide
  have hhttps : bytes "https" ≠ [] := by decide
  have hne : bytes "http" ≠ bytes "https" := by decide
  have hne2 : bytes "https" ≠ bytes "http" := by decide
  rcases cfg with ⟨id, sec, sch, host, ep, red, scopes, ctx⟩
  simp only [New] at h
  by_cases hid : id = []
  · simp [hid] at h
  · by_cases hsch : sch = []
    · subst hsch
      by_cases hsec : sec = [] <;> cases ctx <;> simp [hid, hsec, hhttp, hne] at h <;>
        subst h <;> simp [hhttp]
    · by_cases h1 : sch = bytes "https"
      · subst h1
        by_cases hsec : sec = [] <;> cases ctx <;> simp [hid, hsec, hhttps, hne2] at h <;>
          subst h <;> simp [hhttps]
      · by_cases h2 : sch = bytes "http"
        · subst h2
          by_cases hsec : sec = [] <;> cases ctx <;> simp [hid, hsec, hhttp, hne] at h <;>
            subst h <;> simp [hhttp]
        · by_cases hsec : sec = [] <;> cases ctx <;> simp [hid, hsec, hsch, h1, h2] at h

/-- C8 (counterexample).  For the client built from `DefaultConfig` (scheme `http`, host
`localhost`, path `/oauth`) the AuthURL of the oauth2 configuration is `/oauth/authorize`,
not `http://localhost/oauth/authorize`. -/
theorem New_DefaultConfig_AuthURL :
    DefaultConfig.Scheme = bytes "http" ∧ DefaultConfig.Host = bytes "localhost"
    ∧ DefaultConfig.UAAEndpoint = bytes "/oauth"
    ∧ (New none DefaultConfig).2 = none
    ∧ (New none DefaultConfig).1.map (fun u => u.oauthConfig.Endpoint.AuthURL)
        = some (bytes "/oauth/authorize")
    ∧ bytes "/oauth/authorize"
        ≠ bytes "http" ++ bytes "://" ++ bytes "localhost" ++ bytes "/oauth/authorize" := by
  refine ⟨by decide, by decide, by decide, by decide, by decide, by decide⟩

/-- C8 (amended).  For a client `u` built by `New` from a Config with host `H` and
identity-service path `/oauth`, writing `base` for the scheme held by the client (the scheme
of the Config, `http` when that is empty) followed by `://` and `H`: the oauth2 AuthURL is
`/oauth/authorize` (the path alone, without `base`), the oauth2 TokenURL is
`base/oauth/token`, every request of `ValidToken` goes to `base/check_token` and every
request of `Create` goes to `base/oauth/clients/`; each of the two sends one request when
`http.NewRequest` accepts the URL. -/
theorem New_endpoint_urls (env : Env) (rnd : Option GoString) (cfg : Config) (u : UaaClient)
    (t : Token) (client : Client)
    (hnew : New rnd cfg = (some u, none)) (hep : cfg.UAAEndpoint = bytes "/oauth") :
    (cfg.Scheme ≠ [] → u.config.Scheme = cfg.Scheme)
    ∧ (cfg.Scheme = [] → u.config.Scheme = bytes "http")
    ∧ u.oauthConfig.Endpoint.AuthURL = bytes "/oauth/authorize"
    ∧ u.oauthConfig.Endpoint.TokenURL
        = u.config.Scheme ++ bytes "://" ++ cfg.Host ++ bytes "/oauth/token"
    ∧ (∀ req ∈ (u.ValidToken env t).2,
        req.URL = u.config.Scheme ++ bytes "://" ++ cfg.Host ++ bytes "/check_token")
    ∧ (∀ req ∈ (u.Clients.Create env t client).2,
        req.URL = u.config.Scheme ++ bytes "://" ++ cfg.Host ++ bytes "/oauth/clients/")
    ∧ (env.NewRequestErr (bytes "POST")
          (u.config.Scheme ++ bytes "://" ++ cfg.Host ++ bytes "/check_token") = none →
        ∃ req, (u.ValidToken env t).2 = [req])
    ∧ (env.NewRequestErr (bytes "POST")
          (u.config.Scheme ++ bytes "://" ++ cfg.Host ++ bytes "/oauth/clients/") = none →
        ∃ req, (u.Clients.Create env t client).2 = [req]) := by
  obtain ⟨huri, huaa, hauth, htok, hs1, hs2⟩ := New_uris rnd cfg u hnew
  have e1 : bytes "/oauth" ++ bytes "/authorize" = bytes "/oauth/authorize" := by decide
  have e2 : bytes "/oauth" ++ bytes "/token" = bytes "/oauth/token" := by decide
  have e3 : bytes "/oauth" ++ bytes "/clients/" = bytes "/oauth/clients/" := by decide
  have hcu : (u.Clients).u = u := rfl
  have huaa2 : u.uaauri ++ bytes "/clients/"
      = u.config.Scheme ++ bytes "://" ++ cfg.Host ++ bytes "/oauth/clients/" := by
    rw [huaa, huri, hep, List.append_assoc _ (bytes "/oauth"), e3]
  refine ⟨hs1, hs2, ?_, ?_, ?_, ?_, ?_, ?_⟩
  · rw [hauth, hep, e1]
  · rw [htok, huaa, huri, hep, List.append_assoc _ (bytes "/oauth"), e2]
  · intro req hreq
    rw [((ValidToken_sent env u t).1 req hreq).2, huri]
  · intro req hreq
    rw [((Create_sent env u.Clients t client).1 req hreq).2, hcu, huaa2]
  · intro hn
    exact (ValidToken_sent env u t).2 (by rw [huri]; exact hn)
  · intro hn
    exact (Create_sent env u.Clients t client).2 (by rw [hcu, huaa2]; exact hn)

/-- Witness of C8 (amended): the client built from `DefaultConfig`. -/
theorem New_endpoint_urls_witness :
    exampleClient.oauthConfig.Endpoint.AuthURL = bytes "/oauth/authorize"
    ∧ exampleClient.oauthConfig.Endpoint.TokenURL
        = exampleClient.config.Scheme ++ bytes "://" ++ DefaultConfig.Host ++ bytes "/oauth/token"
    ∧ (∃ req, (exampleClient.ValidToken (exampleEnv 200 []) {}).2 = [req]) :=
  have h := New_endpoint_urls (exampleEnv 200 []) none DefaultConfig exampleClient {}
    { ClientID := "c1" } (by decide) (by decide)
  ⟨h.2.2.1, h.2.2.2.1, h.2.2.2.2.2.2.1 (by decide)⟩

/-! ## clients.go: Delete -/

/-- C10 (the code at the failing input).  `Delete` does not use its argument `clientID`: its
request goes to `uaauri/clients/` for every identifier, so the results and requests for two
identifiers are the same, while `Get` requests `uaauri/clients/` followed by the identifier.
For the identifier `c1` and the client built from `DefaultConfig`, `Delete` requests
`http://localhost/oauth/clients/` and `Get` requests `http://localhost/oauth/clients/c1`. -/
theorem Delete_ignores_clientID (env : Env) (c : Clients) (t : Token) (id1 id2 : GoString) :
    c.Delete env t id1 = c.Delete env t id2
    ∧ (∀ req ∈ (c.Delete env t id1).2, req.URL = c.u.uaauri ++ bytes "/clients/")
    ∧ (∀ req ∈ (c.Get env t id1).2, req.URL = c.u.uaauri ++ bytes "/clients/" ++ id1)
    ∧ ((Clients.Delete (exampleEnv 200 []) ⟨exampleClient⟩ {} (bytes "c1")).2.map fun r => r.URL)
        = [bytes "http://localhost/oauth/clients/"]
    ∧ ((Clients.Get (exampleEnv 200 []) ⟨exampleClient⟩ {} (bytes "c1")).2.map fun r => r.URL)
        = [bytes "http://localhost/oauth/clients/c1"] := by
  refine ⟨rfl, ?_, ?_, by decide, by decide⟩
  · intro req hreq
    exact ((Delete_sent env c t id1).1 req hreq).2
  · intro req hreq
    exact ((Get_sent env c t id1).1 req hreq).2

/-! ## Go maps and sorted members -/

theorem lookup_filter_ne (m : GoMap) (k k' : String) (h : k' ≠ k) :
    (m.filter fun e => e.1 != k).lookup k' = m.lookup k' := by
  induction m with
  | nil => rfl
  | cons e m ih =>
    obtain ⟨a, b⟩ := e
    by_cases ha : a = k
    · subst ha
      have hk : (k' == a) = false := by simpa using h
      simp [List.filter_cons, List.lookup_cons, hk, ih]
    · have hne : (a != k) = true := by simpa using ha
      simp only [List.filter_cons, hne, if_true, List.lookup_cons, ih]

theorem lookup_set (m : GoMap) (k k' : String) (v : JSON) :
    (GoMap.set m k v).lookup k' = if k' = k then some v else m.lookup k' := by
  unfold GoMap.set
  by_cases h : k' = k
  · subst h; simp
  · have hk : (k' == k) = false := by simpa using h
    simp only [List.lookup_cons, hk, h, if_false]
    exact lookup_filter_ne m k k' h

theorem lookup_assignAll (dst src : GoMap) (k : String) :
    (GoMap.assignAll dst src).lookup k = (src.lookup k).or (dst.lookup k) := by
  unfold GoMap.assignAll
  induction src with
  | nil => rfl
  | cons e src ih =>
    obtain ⟨a, b⟩ := e
    simp only [List.foldr_cons, lookup_set, List.lookup_cons]
    by_cases h : k = a
    · subst h; simp
    · have hk : (k == a) = false := by simpa using h
      simp [h, hk, ih]

theorem lookup_foldl_set (l : List (String × JSON)) (m : GoMap) (k : String) :
    (l.foldl (fun x e => GoMap.set x e.1 e.2) m).lookup k
      = (l.reverse.lookup k).or (m.lookup k) := by
  induction l generalizing m with
  | nil => rfl
  | cons e l ih =>
    obtain ⟨a, b⟩ := e
    simp only [List.foldl_cons, ih, List.reverse_cons, List.lookup_append, lookup_set,
      List.lookup_cons, List.lookup_nil]
    by_cases h : k = a
    · subst h; cases l.reverse.lookup k <;> simp
    · have hk : (k == a) = false := by simpa using h
      cases l.reverse.lookup k <;> simp [h, hk]

theorem mem_of_lookup_eq_some (l : List (String × JSON)) (k : String) (v : JSON)
    (h : l.lookup k = some v) : (k, v) ∈ l := by
  obtain ⟨l₁, l₂, rfl, _⟩ := List.lookup_eq_some_iff.mp h
  simp

theorem lookup_of_mem_of_nodup (l : List (String × JSON)) (k : String) (v : JSON)
    (hnd : (l.map Prod.fst).Nodup) (h : (k, v) ∈ l) : l.lookup k = some v := by
  induction l with
  | nil => cases h
  | cons e l ih =>
    obtain ⟨a, b⟩ := e
    simp only [List.map_cons, List.nodup_cons] at hnd
    rcases List.mem_cons.mp h with h1 | h2
    · cases h1; simp
    · have hne : k ≠ a := by
        intro hka
        exact hnd.1 (List.mem_map.mpr ⟨(k, v), h2, hka⟩)
      have hk : (k == a) = false := by simpa using hne
      simp only [List.lookup_cons, hk]
      exact ih hnd.2 h2

theorem lookup_eq_of_perm (l l' : List (String × JSON)) (k : String) (hp : l.Perm l')
    (hnd : (l.map Prod.fst).Nodup) : l.lookup k = l'.lookup k := by
  have hnd' : (l'.map Prod.fst).Nodup := (hp.map Prod.fst).nodup_iff.mp hnd
  cases h : l.lookup k with
  | some v =>
    exact (lookup_of_mem_of_nodup l' k v hnd' (hp.mem_iff.mp (mem_of_lookup_eq_some l k v h))).symm
  | none =>
    cases h' : l'.lookup k with
    | none => rfl
    | some v =>
      have := lookup_of_mem_of_nodup l k v hnd (hp.mem_iff.mpr (mem_of_lookup_eq_some l' k v h'))
      rw [h] at this; cases this

theorem nodup_keys_set (m : GoMap) (k : String) (v : JSON) (h : (m.map Prod.fst).Nodup) :
    ((GoMap.set m k v).map Prod.fst).Nodup := by
  unfold GoMap.set
  simp only [List.map_cons, List.nodup_cons]
  constructor
  · intro hk
    obtain ⟨e, he, hek⟩ := List.mem_map.mp hk
    have := (List.mem_filter.mp he).2
    simp at this
    exact this hek
  · exact (List.filter_sublist m).map Prod.fst |>.nodup h

theorem nodup_keys_foldl_set (l : List (String × JSON)) (m : GoMap)
    (h : (m.map Prod.fst).Nodup) :
    ((l.foldl (fun x e => GoMap.set x e.1 e.2) m).map Prod.fst).Nodup := by
  induction l generalizing m with
  | nil => exact h
  | cons e l ih => exact ih _ (nodup_keys_set m e.1 e.2 h)

theorem nodup_keys_assignAll (dst src : GoMap) (h : (dst.map Prod.fst).Nodup) :
    ((GoMap.assignAll dst src).map Prod.fst).Nodup := by
  unfold GoMap.assignAll
  induction src with
  | nil => exact h
  | cons e src ih => exact nodup_keys_set _ e.1 e.2 ih

theorem insertByKey_perm (kv : String × JSON) (l : List (String × JSON)) :
    (insertByKey kv l).Perm (kv :: l) := by
  induction l with
  | nil => exact List.Perm.refl _
  | cons m ms ih =>
    unfold insertByKey
    split
    · exact List.Perm.refl _
    · exact ((List.Perm.cons m ih).trans (List.Perm.swap kv m ms))

theorem sortByKey_perm (m : GoMap) : (sortByKey m).Perm m := by
  unfold sortByKey
  induction m with
  | nil => exact List.Perm.refl _
  | cons e m ih =>
    exact (insertByKey_perm e _).trans (List.Perm.cons e ih)

/-! ## The field table of Client -/

theorem decodeElems_map_str (old xs : List String) :
    decodeElems old (xs.map JSON.str) = xs := by
  induction xs generalizing old with
  | nil => rfl
  | cons x xs ih => simp [decodeElems, ih]

theorem all_isStringOrNull_map_str (xs : List String) :
    (xs.map JSON.str).all JSON.isStringOrNull = true := by
  induction xs with
  | nil => rfl
  | cons x xs ih => simp [JSON.isStringOrNull]

theorem equalFold_self (n : String) : equalFold n n = true := by
  simp [equalFold]

theorem Client_fields_cases (P : StructField Client → Prop)
    (h : ∀ f ∈ Client.fields, P f) :
    P (stringField "client_id" false (·.ClientID) (fun c v => { c with ClientID := v }))
    ∧ P (stringsField "authorized_grant_types" true (·.AuthorizedGrantTypes)
      (fun c v => { c with AuthorizedGrantTypes := v }))
    ∧ P (stringsField "redirect_uri" true (·.RedirectURI) (fun c v => { c with RedirectURI := v }))
    ∧ P (stringsField "scope" true (·.Scope) (fun c v => { c with Scope := v }))
    ∧ P (stringsField "resource_ids" true (·.ResourceIds) (fun c v => { c with ResourceIds := v }))
    ∧ P (stringsField "authorities" true (·.Authorities) (fun c v => { c with Authorities := v }))
    ∧ P (ifaceField "autoapprove" true (·.Autoapprove) (fun c v => { c with Autoapprove := v }))
    ∧ P (uint32Field "access_token_validity" true (·.AccessTokenValidity)
      (fun c v => { c with AccessTokenValidity := v }))
    ∧ P (uint32Field "refresh_token_validity" true (·.RefreshTokenValidity)
      (fun c v => { c with RefreshTokenValidity := v }))
    ∧ P (stringsField "allowedproviders" true (·.Allowedproviders)
      (fun c v => { c with Allowedproviders := v }))
    ∧ P (stringField "name" true (·.Name) (fun c v => { c with Name := v }))
    ∧ P (stringField "token_salt" true (·.TokenSalt) (fun c v => { c with TokenSalt := v }))
    ∧ P (stringField "createdwith" true (·.CreatedWith) (fun c v => { c with CreatedWith := v }))
    ∧ P (stringsField "required_user_groups" true (·.RequiredUserGroups)
      (fun c v => { c with RequiredUserGroups := v }))
    ∧ P (stringField "client_secret" true (·.ClientSecret)
      (fun c v => { c with ClientSecret := v })) := by
  refine ⟨?_, ?_, ?_, ?_, ?_, ?_, ?_, ?_, ?_, ?_, ?_, ?_, ?_, ?_, ?_⟩ <;>
    exact h _ (by simp [Client.fields])

theorem Client_fields_forall (P : StructField Client → Prop)
    (h : P (stringField "client_id" false (·.ClientID) (fun c v => { c with ClientID := v }))
    ∧ P (stringsField "authorized_grant_types" true (·.AuthorizedGrantTypes)
      (fun c v => { c with AuthorizedGrantTypes := v }))
    ∧ P (stringsField "redirect_uri" true (·.RedirectURI) (fun c v => { c with RedirectURI := v }))
    ∧ P (stringsField "scope" true (·.Scope) (fun c v => { c with Scope := v }))
    ∧ P (stringsField "resource_ids" true (·.ResourceIds) (fun c v => { c with ResourceIds := v }))
    ∧ P (stringsField "authorities" true (·.Authorities) (fun c v => { c with Authorities := v }))
    ∧ P (ifaceField "autoapprove" true (·.Autoapprove) (fun c v => { c with Autoapprove := v }))
    ∧ P (uint32Field "access_token_validity" true (·.AccessTokenValidity)
      (fun c v => { c with AccessTokenValidity := v }))
    ∧ P (uint32Field "refresh_token_validity" true (·.RefreshTokenValidity)
      (fun c v => { c with RefreshTokenValidity := v }))
    ∧ P (stringsField "allowedproviders" true (·.Allowedproviders)
      (fun c v => { c with Allowedproviders := v }))
    ∧ P (stringField "name" true (·.Name) (fun c v => { c with Name := v }))
    ∧ P (stringField "token_salt" true (·.TokenSalt) (fun c v => { c with TokenSalt := v }))
    ∧ P (stringField "createdwith" true (·.CreatedWith) (fun c v => { c with CreatedWith := v }))
    ∧ P (stringsField "required_user_groups" true (·.RequiredUserGroups)
      (fun c v => { c with RequiredUserGroups := v }))
    ∧ P (stringField "client_secret" true (·.ClientSecret)
      (fun c v => { c with ClientSecret := v }))) :
    ∀ f ∈ Client.fields, P f := by
  intro f hf
  obtain ⟨h1, h2, h3, h4, h5, h6, h7, h8, h9, h10, h11, h12, h13, h14, h15⟩ := h
  simp only [Client.fields, List.mem_cons, List.mem_singleton, List.not_mem_nil, or_false] at hf
  rcases hf with rfl | rfl | rfl | rfl | rfl | rfl | rfl | rfl | rfl | rfl | rfl | rfl | rfl | rfl | rfl
  all_goals assumption

/-- The name of every field is one of the keys that `UnmarshalJSON` skips. -/
theorem Client_fields_name_known : ∀ f ∈ Client.fields, f.name ∈ Client.knownKeys := by
  apply Client_fields_forall
  simp [stringField, stringsField, uint32Field, ifaceField, Client.knownKeys]

/-- A key is stored in the field that bears it as its name. -/
theorem Client_findField_name : ∀ f ∈ Client.fields, findField Client.fields f.name = some f := by
  apply Client_fields_forall
  refine ⟨rfl, rfl, rfl, rfl, rfl, rfl, rfl, rfl, rfl, rfl, rfl, rfl, rfl, rfl, rfl⟩

/-- Storing the value a field has in `c` makes the field equal to that of `c`, whatever
the field held; this is also what fields of the same name see. -/
theorem Client_get_set_same : ∀ f ∈ Client.fields, ∀ g ∈ Client.fields, f.name = g.name →
    ∀ s c : Client, f.get (g.set s (g.get c)) = f.get c := by
  apply Client_fields_forall
  refine ⟨?_, ?_, ?_, ?_, ?_, ?_, ?_, ?_, ?_, ?_, ?_, ?_, ?_, ?_, ?_⟩ <;>
  · apply Client_fields_forall
    refine ⟨?_, ?_, ?_, ?_, ?_, ?_, ?_, ?_, ?_, ?_, ?_, ?_, ?_, ?_, ?_⟩ <;>
      first
        | (intro _ s c; rfl)
        | (intro h; exact absurd h (by decide))

/-- Storing into one field leaves the fields of other names as they were. -/
theorem Client_get_set_ne : ∀ f ∈ Client.fields, ∀ g ∈ Client.fields, f.name ≠ g.name →
    ∀ (s : Client) (v : GoValue), f.get (g.set s v) = f.get s := by
  apply Client_fields_forall
  refine ⟨?_, ?_, ?_, ?_, ?_, ?_, ?_, ?_, ?_, ?_, ?_, ?_, ?_, ?_, ?_⟩ <;>
  · apply Client_fields_forall
    refine ⟨?_, ?_, ?_, ?_, ?_, ?_, ?_, ?_, ?_, ?_, ?_, ?_, ?_, ?_, ?_⟩ <;>
      first
        | (intro h; exact absurd rfl h)
        | (intro _ s v; cases v <;> rfl)

/-- Storing into a field leaves the map `extra` as it was. -/
theorem Client_set_extra : ∀ f ∈ Client.fields, ∀ (s : Client) (v : GoValue),
    (f.set s v).extra = s.extra := by
  apply Client_fields_forall
  refine ⟨?_, ?_, ?_, ?_, ?_, ?_, ?_, ?_, ?_, ?_, ?_, ?_, ?_, ?_, ?_⟩ <;>
    (intro s v; cases v <;> rfl)

/-- What `encoding/json` writes for a field of a Client decodes to the value of the field. -/
theorem Client_decode_encode (c : Client) (h1 : c.AccessTokenValidity < 2 ^ 32)
    (h2 : c.RefreshTokenValidity < 2 ^ 32) :
    ∀ f ∈ Client.fields, ∀ s : Client, (f.get s).decode (f.get c).encode = (f.get c, true) := by
  have h1' : c.AccessTokenValidity < 4294967296 := by simpa using h1
  have h2' : c.RefreshTokenValidity < 4294967296 := by simpa using h2
  apply Client_fields_forall
  refine ⟨?_, ?_, ?_, ?_, ?_, ?_, ?_, ?_, ?_, ?_, ?_, ?_, ?_, ?_, ?_⟩ <;> intro s <;>
    simp [stringField, stringsField, uint32Field, ifaceField, GoValue.decode, GoValue.encode,
      decodeElems_map_str, all_isStringOrNull_map_str, h1', h2']

/-- A field that `omitempty` leaves out holds the zero value. -/
theorem Client_isEmpty_zero (c : Client) :
    ∀ f ∈ Client.fields, (f.get c).isEmpty = true → f.get c = f.get ({} : Client) := by
  have hnull : ∀ v : JSON, (GoValue.iface v).isEmpty = true → v = JSON.null := by
    intro v h
    cases v <;> first | rfl | (simp [GoValue.isEmpty] at h)
  apply Client_fields_forall
  refine ⟨?_, ?_, ?_, ?_, ?_, ?_, ?_, ?_, ?_, ?_, ?_, ?_, ?_, ?_, ?_⟩ <;>
    first
      | (intro h; exact congrArg GoValue.iface (hnull _ h))
      | simp [stringField, stringsField, uint32Field, ifaceField, GoValue.isEmpty]

theorem ne_of_equalFold_false (n k : String) (h : equalFold n k = false) : (n == k) = false := by
  by_contra hc
  simp only [Bool.not_eq_false, beq_iff_eq] at hc
  subst hc
  rw [equalFold_self] at h
  cases h

/-- A key that is no spelling of a known key is stored in no field. -/
theorem Client_findField_unknown (k : String)
    (h : ∀ n ∈ Client.knownKeys, equalFold n k = false) :
    findField Client.fields k = none := by
  have hf : ∀ f ∈ Client.fields, equalFold f.name k = false ∧ (f.name == k) = false :=
    fun f hf => ⟨h _ (Client_fields_name_known f hf),
      ne_of_equalFold_false _ _ (h _ (Client_fields_name_known f hf))⟩
  have h1 : (Client.fields.find? fun f => f.name == k) = none :=
    List.find?_eq_none.mpr fun f hf' => by simp [(hf f hf').2]
  have h2 : (Client.fields.find? fun f => equalFold f.name k) = none :=
    List.find?_eq_none.mpr fun f hf' => by simp [(hf f hf').1]
  simp [findField, h1, h2]

/-- Decoding of members that are either unknown keys or fields of `c` as written by
`encoding/json`: no error is recorded, `extra` is untouched, and a field holds the value it
has in `c` when its key is among the members and is unchanged otherwise. -/
theorem decode_members_of_Client (c : Client) (h1 : c.AccessTokenValidity < 2 ^ 32)
    (h2 : c.RefreshTokenValidity < 2 ^ 32) (ms : List (String × JSON)) (s : Client)
    (hms : ∀ m ∈ ms, (∀ n ∈ Client.knownKeys, equalFold n m.1 = false)
      ∨ ∃ f ∈ Client.fields, m.1 = f.name ∧ m.2 = (f.get c).encode) :
    (ms.foldl (decodeMember "uaaclient.Client" Client.fields) (s, none)).2 = none
    ∧ (ms.foldl (decodeMember "uaaclient.Client" Client.fields) (s, none)).1.extra = s.extra
    ∧ ∀ f ∈ Client.fields,
        f.get (ms.foldl (decodeMember "uaaclient.Client" Client.fields) (s, none)).1
          = if f.name ∈ ms.map Prod.fst then f.get c else f.get s := by
  induction ms generalizing s with
  | nil => simp
  | cons m ms ih =>
    have hms' : ∀ m' ∈ ms, (∀ n ∈ Client.knownKeys, equalFold n m'.1 = false)
        ∨ ∃ f ∈ Client.fields, m'.1 = f.name ∧ m'.2 = (f.get c).encode :=
      fun m' hm' => hms m' (List.mem_cons_of_mem _ hm')
    rcases hms m (List.mem_cons_self _ _) with hun | ⟨g, hg, hk, hv⟩
    · have hstep : decodeMember "uaaclient.Client" Client.fields (s, none) m = (s, none) := by
        simp [decodeMember, Client_findField_unknown m.1 hun]
      rw [List.foldl_cons, hstep]
      obtain ⟨i1, i2, i3⟩ := ih s hms'
      refine ⟨i1, i2, fun f hf => ?_⟩
      rw [i3 f hf]
      have hne : f.name ≠ m.1 := by
        intro heq
        have := hun _ (Client_fields_name_known f hf)
        rw [heq, equalFold_self] at this
        cases this
      by_cases hin : f.name ∈ ms.map Prod.fst
      · rw [if_pos hin, if_pos (by simp [hin])]
      · rw [if_neg hin, if_neg (by simp [hne, hin])]
    · have hstep : decodeMember "uaaclient.Client" Client.fields (s, none) m
          = (g.set s (g.get c), none) := by
        simp [decodeMember, hk, Client_findField_name g hg, hv,
          Client_decode_encode c h1 h2 g hg s]
      rw [List.foldl_cons, hstep]
      obtain ⟨i1, i2, i3⟩ := ih (g.set s (g.get c)) hms'
      refine ⟨i1, ?_, fun f hf => ?_⟩
      · rw [i2, Client_set_extra g hg]
      · rw [i3 f hf]
        by_cases hin : f.name ∈ ms.map Prod.fst
        · rw [if_pos hin, if_pos (by simp [hin])]
        · by_cases hfg : f.name = g.name
          · rw [if_neg hin, if_pos (by simp [hk, hfg]), Client_get_set_same f hf g hg hfg s c]
          · have hne : ¬ (f.name = m.1) := by rw [hk]; exact hfg
            rw [if_neg hin, if_neg (by simp [hne, hin]),
              Client_get_set_ne f hf g hg hfg s (g.get c)]

/-! ## client.go: the round trip -/

theorem extra_foldr_eq (x : GoMap) (c0 : Client) :
    x.foldr (fun e c =>
        if Client.knownKeys.contains e.1 then c
        else { c with extra := GoMap.set c.extra e.1 e.2 }) c0
      = { c0 with extra := x.foldr (fun e m =>
          if Client.knownKeys.contains e.1 then m else GoMap.set m e.1 e.2) c0.extra } := by
  induction x with
  | nil => rfl
  | cons e x ih =>
    simp only [List.foldr_cons, ih]
    split <;> rfl

theorem lookup_extra_foldr (x : GoMap) (k : String) :
    (x.foldr (fun e m =>
        if Client.knownKeys.contains e.1 then m else GoMap.set m e.1 e.2) []).lookup k
      = if Client.knownKeys.contains k then none else x.lookup k := by
  induction x with
  | nil => simp
  | cons e x ih =>
    obtain ⟨a, b⟩ := e
    simp only [List.foldr_cons]
    by_cases han : Client.knownKeys.contains a = true
    · rw [if_pos han, ih, List.lookup_cons]
      by_cases hka : k = a
      · subst hka; rw [if_pos han, if_pos han]
      · have hk : (k == a) = false := by simpa using hka
        simp only [hk]
    · rw [if_neg han, lookup_set, ih, List.lookup_cons]
      by_cases hka : k = a
      · subst hka; rw [if_pos rfl, if_neg han]; simp
      · have hk : (k == a) = false := by simpa using hka
        rw [if_neg hka]; simp only [hk]

/-- The members that `MarshalJSON` writes for `c`. -/
theorem MarshalJSON_eq (c : Client) :
    c.MarshalJSON = .ok (.obj (sortByKey (GoMap.assignAll
      ((Client.fields.filterMap fun f =>
          if f.omitEmpty && (f.get c).isEmpty then none
          else some (f.name, (f.get c).encode)).foldl (fun x m => GoMap.set x m.1 m.2) [])
      c.extra))) := by
  simp [Client.MarshalJSON, json.MarshalStruct, json.UnmarshalMap, json.MarshalMap]

theorem UnmarshalJSON_obj (ms : List (String × JSON)) (c0 c1 : Client)
    (h : ms.foldl (decodeMember "uaaclient.Client" Client.fields) (c0, none) = (c1, none)) :
    Client.UnmarshalJSON c0 (.obj ms)
      = ({ c1 with extra := (ms.foldl (fun x m => GoMap.set x m.1 m.2) []).foldr (fun e m =>
          if Client.knownKeys.contains e.1 then m else GoMap.set m e.1 e.2) [] }, none) := by
  simp only [Client.UnmarshalJSON, json.UnmarshalStruct, h, json.UnmarshalMap, extra_foldr_eq]

/-- C3 (amended).  Let `c` be a Client none of whose extension keys is a spelling (exact or
under case folding) of one of the fifteen known keys, and whose two validity fields are in
the range of `uint32`.  Then `MarshalJSON` succeeds, `UnmarshalJSON` of its result into a
zero Client succeeds, and the Client obtained returns for every key what `c.GetExtra`
returns and has the fifteen known fields of `c`. -/
theorem Client_roundtrip (c : Client)
    (hkeys : ∀ e ∈ c.extra, ∀ n ∈ Client.knownKeys, equalFold n e.1 = false)
    (h1 : c.AccessTokenValidity < 2 ^ 32) (h2 : c.RefreshTokenValidity < 2 ^ 32) :
    ∃ b c', c.MarshalJSON = .ok b ∧ Client.UnmarshalJSON {} b = (c', none)
      ∧ (∀ k, c'.GetExtra k = c.GetExtra k)
      ∧ c'.ClientID = c.ClientID
      ∧ c'.AuthorizedGrantTypes = c.AuthorizedGrantTypes
      ∧ c'.RedirectURI = c.RedirectURI
      ∧ c'.Scope = c.Scope
      ∧ c'.ResourceIds = c.ResourceIds
      ∧ c'.Authorities = c.Authorities
      ∧ c'.Autoapprove = c.Autoapprove
      ∧ c'.AccessTokenValidity = c.AccessTokenValidity
      ∧ c'.RefreshTokenValidity = c.RefreshTokenValidity
      ∧ c'.Allowedproviders = c.Allowedproviders
      ∧ c'.Name = c.Name
      ∧ c'.TokenSalt = c.TokenSalt
      ∧ c'.CreatedWith = c.CreatedWith
      ∧ c'.RequiredUserGroups = c.RequiredUserGroups
      ∧ c'.ClientSecret = c.ClientSecret := by
  -- the members written for the fields, the two maps, and the members of the result
  generalize hM0 : (Client.fields.filterMap fun f =>
      if f.omitEmpty && (f.get c).isEmpty then none
      else some (f.name, (f.get c).encode)) = M0
  generalize hx0 : M0.foldl (fun x m => GoMap.set x m.1 m.2) [] = x0
  generalize hx1 : GoMap.assignAll x0 c.extra = x1
  generalize hms : sortByKey x1 = ms
  have hb : c.MarshalJSON = .ok (.obj ms) := by
    rw [MarshalJSON_eq, hM0, hx0, hx1, hms]
  have hM0mem : ∀ k v, (k, v) ∈ M0 ↔ ∃ f ∈ Client.fields,
      ¬ (f.omitEmpty && (f.get c).isEmpty) = true ∧ k = f.name ∧ v = (f.get c).encode := by
    intro k v
    rw [← hM0, List.mem_filterMap]
    constructor
    · rintro ⟨f, hf, hfe⟩
      by_cases ho : (f.omitEmpty && (f.get c).isEmpty) = true
      · simp [ho] at hfe
      · simp only [ho] at hfe
        simp only [Bool.false_eq_true, if_false, Option.some.injEq, Prod.mk.injEq] at hfe
        exact ⟨f, hf, ho, hfe.1.symm, hfe.2.symm⟩
    · rintro ⟨f, hf, ho, rfl, rfl⟩
      exact ⟨f, hf, by simp [ho]⟩
  have hx0nd : (x0.map Prod.fst).Nodup := by
    rw [← hx0]; exact nodup_keys_foldl_set M0 [] (by simp)
  have hx1nd : (x1.map Prod.fst).Nodup := by
    rw [← hx1]; exact nodup_keys_assignAll x0 c.extra hx0nd
  have hperm : ms.Perm x1 := by rw [← hms]; exact sortByKey_perm x1
  have hmsnd : (ms.map Prod.fst).Nodup := (hperm.map Prod.fst).nodup_iff.mpr hx1nd
  have hx0look : ∀ k v, x0.lookup k = some v → (k, v) ∈ M0 := by
    intro k v h
    rw [← hx0, lookup_foldl_set] at h
    simp only [List.lookup_nil, Option.or_none] at h
    exact List.mem_reverse.mp (mem_of_lookup_eq_some _ k v h)
  have hx1look : ∀ k, x1.lookup k = (c.extra.lookup k).or (x0.lookup k) := by
    intro k; rw [← hx1]; exact lookup_assignAll x0 c.extra k
  -- every member is an extension entry or a field of c
  have hmem : ∀ m ∈ ms, (∀ n ∈ Client.knownKeys, equalFold n m.1 = false)
      ∨ ∃ f ∈ Client.fields, m.1 = f.name ∧ m.2 = (f.get c).encode := by
    rintro ⟨k, v⟩ hm
    have hl : x1.lookup k = some v :=
      lookup_of_mem_of_nodup x1 k v hx1nd (hperm.mem_iff.mp hm)
    rw [hx1look] at hl
    cases he : c.extra.lookup k with
    | some w =>
      exact Or.inl (hkeys (k, w) (mem_of_lookup_eq_some _ k w he))
    | none =>
      rw [he] at hl
      obtain ⟨f, hf, _, hk, hv⟩ := (hM0mem k v).mp (hx0look k v hl)
      exact Or.inr ⟨f, hf, hk, hv⟩
  -- every field that is written is among the members
  have hpresent : ∀ f ∈ Client.fields, ¬ (f.omitEmpty && (f.get c).isEmpty) = true →
      f.name ∈ ms.map Prod.fst := by
    intro f hf ho
    have h0 : (f.name, (f.get c).encode) ∈ M0 := (hM0mem _ _).mpr ⟨f, hf, ho, rfl, rfl⟩
    have h1 : (x0.lookup f.name).isSome = true := by
      rw [← hx0, lookup_foldl_set]
      simp only [List.lookup_nil, Option.or_none, List.lookup_isSome_iff]
      exact ⟨_, List.mem_reverse.mpr h0, by simp⟩
    have h2 : (x1.lookup f.name).isSome = true := by
      rw [hx1look]
      cases c.extra.lookup f.name <;> simp [h1]
    obtain ⟨v, hv⟩ := Option.isSome_iff_exists.mp h2
    exact List.mem_map.mpr ⟨(f.name, v), hperm.mem_iff.mpr (mem_of_lookup_eq_some _ _ _ hv), rfl⟩
  -- the struct obtained
  obtain ⟨d1, d2, d3⟩ := decode_members_of_Client c h1 h2 ms {} hmem
  generalize hr : ms.foldl (decodeMember "uaaclient.Client" Client.fields) (({} : Client), none)
    = r at d1 d2 d3
  obtain ⟨c1, e1⟩ := r
  simp only at d1 d2 d3
  subst d1
  have hfield : ∀ f ∈ Client.fields, f.get c1 = f.get c := by
    intro f hf
    rw [d3 f hf]
    by_cases hin : f.name ∈ ms.map Prod.fst
    · rw [if_pos hin]
    · rw [if_neg hin]
      have ho : (f.omitEmpty && (f.get c).isEmpty) = true := by
        by_contra ho
        exact hin (hpresent f hf ho)
      have he : (f.get c).isEmpty = true := by
        simp only [Bool.and_eq_true] at ho
        exact ho.2
      exact (Client_isEmpty_zero c f hf he).symm
  refine ⟨.obj ms, _, hb, UnmarshalJSON_obj ms {} c1 hr, ?_, ?_⟩
  · intro k
    simp only [Client.GetExtra, GoMap.get]
    rw [lookup_extra_foldr]
    by_cases hkn : Client.knownKeys.contains k = true
    · rw [if_pos hkn]
      cases he : c.extra.lookup k with
      | none => rfl
      | some w =>
        have := hkeys (k, w) (mem_of_lookup_eq_some _ k w he) k (by simpa using hkn)
        rw [equalFold_self] at this
        cases this
    · rw [if_neg hkn, lookup_foldl_set]
      simp only [List.lookup_nil, Option.or_none]
      rw [← lookup_eq_of_perm ms ms.reverse k (List.reverse_perm ms).symm hmsnd,
        lookup_eq_of_perm ms x1 k hperm hmsnd, hx1look]
      cases he : c.extra.lookup k with
      | some w => rfl
      | none =>
        simp only [Option.none_or]
        cases hx : x0.lookup k with
        | none => rfl
        | some v =>
          obtain ⟨f, hf, _, hk, _⟩ := (hM0mem k v).mp (hx0look k v hx)
          exact absurd (by simpa [hk] using Client_fields_name_known f hf) hkn
  · obtain ⟨f1, f2, f3, f4, f5, f6, f7, f8, f9, f10, f11, f12, f13, f14, f15⟩ :=
      Client_fields_cases (fun f => f.get c1 = f.get c) hfield
    simp only [stringField, stringsField, uint32Field, ifaceField, GoValue.string.injEq,
      GoValue.strings.injEq, GoValue.uint32.injEq, GoValue.iface.injEq]
      at f1 f2 f3 f4 f5 f6 f7 f8 f9 f10 f11 f12 f13 f14 f15
    exact ⟨f1, f2, f3, f4, f5, f6, f7, f8, f9, f10, f11, f12, f13, f14, f15⟩

/-- Witness of C3 (amended): a registration with the extension entry `foo: bar`. -/
theorem Client_roundtrip_witness :
    ∃ b c', exampleRegistration.MarshalJSON = .ok b ∧ Client.UnmarshalJSON {} b = (c', none)
      ∧ c'.GetExtra "foo" = some (.str "bar")
      ∧ c'.ClientID = "c1" ∧ c'.Scope = ["a", "b"] ∧ c'.AccessTokenValidity = 3600 := by
  obtain ⟨b, c', hb, hu, hx, hid, _, _, hsc, _, _, _, hat, _⟩ :=
    Client_roundtrip exampleRegistration (by decide) (by decide) (by decide)
  exact ⟨b, c', hb, hu, (hx "foo").trans rfl, hid.trans rfl, hsc.trans rfl, hat.trans rfl⟩

/-- C3 (counterexample).  The client `c1` with the extension entry `client_id: x` set by
`SetExtra`: after `MarshalJSON` and `UnmarshalJSON` into a zero Client, `GetExtra` no longer
returns the entry, and the known field ClientID is `x` instead of `c1`. -/
theorem Client_roundtrip_known_key :
    exampleCollision.GetExtra "client_id" = some (.str "x")
    ∧ exampleCollision.ClientID = "c1"
    ∧ ∃ b c', exampleCollision.MarshalJSON = .ok b ∧ Client.UnmarshalJSON {} b = (c', none)
        ∧ c'.GetExtra "client_id" = none ∧ c'.ClientID = "x" :=
  ⟨rfl, rfl, _, _, rfl, rfl, rfl, rfl⟩

end Uaaclient
